import Mathlib

/-!
Verification development for the arithmetic-expression front end of
`jerarquia-de-operaciones`: a character-level lexer (`src/number/lexer.ts`),
a recursive-descent parser with one-token lookahead (`src/number/parser.ts`),
and an immutable expression tree type (`src/number/number.ts`) with lazy
evaluation, infix rendering, and depth/level queries (plus `src/number/util.ts`).

The embedding is shallow and executable.  JavaScript numbers are modelled
exactly over `ℚ` extended with `NaN` and the two infinities; IEEE-754 double
rounding and the negative zero are not modelled (every value evaluated in a
theorem below is exactly representable, so no statement depends on rounding).
JavaScript strings are `List Char`.
-/

namespace Jer

/-! ## JavaScript numbers

`JsNum` models a JavaScript number: `NaN`, `Infinity`, `-Infinity`, or a
finite value (held exactly as a rational; double rounding and `-0` are not
modelled). -/

inductive JsNum where
  | nan : JsNum
  | posInf : JsNum
  | negInf : JsNum
  | fin : ℚ → JsNum
deriving DecidableEq, Repr

/-- JavaScript `a + b` on `JsNum` (IEEE rules; `-0` not tracked). -/
def jsAdd : JsNum → JsNum → JsNum
  | .nan, _ => .nan
  | _, .nan => .nan
  | .posInf, .negInf => .nan
  | .negInf, .posInf => .nan
  | .posInf, _ => .posInf
  | _, .posInf => .posInf
  | .negInf, _ => .negInf
  | _, .negInf => .negInf
  | .fin a, .fin b => .fin (a + b)

/-- JavaScript unary negation on `JsNum`. -/
def jsNeg : JsNum → JsNum
  | .nan => .nan
  | .posInf => .negInf
  | .negInf => .posInf
  | .fin a => .fin (-a)

/-- JavaScript `a - b` on `JsNum`. -/
def jsSub (a b : JsNum) : JsNum := jsAdd a (jsNeg b)

/-- JavaScript `a * b` on `JsNum` (`±∞ * 0 = NaN`; signs of infinities kept). -/
def jsMul : JsNum → JsNum → JsNum
  | .nan, _ => .nan
  | _, .nan => .nan
  | .posInf, .posInf => .posInf
  | .posInf, .negInf => .negInf
  | .negInf, .posInf => .negInf
  | .negInf, .negInf => .posInf
  | .posInf, .fin b => if b = 0 then .nan else if 0 < b then .posInf else .negInf
  | .negInf, .fin b => if b = 0 then .nan else if 0 < b then .negInf else .posInf
  | .fin a, .posInf => if a = 0 then .nan else if 0 < a then .posInf else .negInf
  | .fin a, .negInf => if a = 0 then .nan else if 0 < a then .negInf else .posInf
  | .fin a, .fin b => .fin (a * b)

/-- JavaScript `a / b` on `JsNum`: division by zero gives a signed infinity
for a nonzero numerator and `NaN` for `0 / 0`; `∞ / ∞ = NaN`; a finite value
divided by an infinity gives `0`. -/
def jsDiv : JsNum → JsNum → JsNum
  | .nan, _ => .nan
  | _, .nan => .nan
  | .posInf, .posInf => .nan
  | .posInf, .negInf => .nan
  | .negInf, .posInf => .nan
  | .negInf, .negInf => .nan
  | .posInf, .fin b => if 0 ≤ b then .posInf else .negInf
  | .negInf, .fin b => if 0 ≤ b then .negInf else .posInf
  | .fin _, .posInf => .fin 0
  | .fin _, .negInf => .fin 0
  | .fin a, .fin b =>
      if b = 0 then
        if a = 0 then .nan else if 0 < a then .posInf else .negInf
      else .fin (a / b)

/-! ## Decimal strings for numbers

`src/number/number.ts` renders a leaf with the template string of its value.
For an integral JavaScript number (below `1e21`) that is the plain decimal
digit string, with a leading `-` when negative; these are the only values any
theorem below renders.  Non-integral values are given an exact terminating
decimal expansion here (capped), standing in for JavaScript's
shortest-round-trip float formatting, which is outside this exact-ℚ model. -/

/-- The decimal digits of `n`, least significant first.  The first argument
is a structural-recursion budget: `n + 1` always suffices because `n / 10`
strictly decreases (see `digitsRevAux_gas_irrel` below). -/
def digitsRevAux : Nat → Nat → List Char
  | 0, _ => []
  | gas + 1, n =>
      if n < 10 then [Nat.digitChar n]
      else Nat.digitChar (n % 10) :: digitsRevAux gas (n / 10)

/-- The decimal digits of `n`, least significant first. -/
def digitsRev (n : Nat) : List Char := digitsRevAux (n + 1) n

/-- The decimal digit string of a natural number, as JavaScript prints it. -/
def natStr (n : Nat) : List Char := (digitsRev n).reverse

/-- The decimal string of an integer, as JavaScript prints it. -/
def intStr (i : Int) : List Char :=
  if i < 0 then '-' :: natStr i.natAbs else natStr i.toNat

/-- Decimal expansion of a proper fraction `num / den`, capped at `fuel`
digits (every claim below only ever renders integral values). -/
def fracDigits : Nat → Nat → Nat → List Char
  | 0, _, _ => []
  | _ + 1, 0, _ => []
  | fuel + 1, num, den =>
      Nat.digitChar ((num * 10) / den) :: fracDigits fuel ((num * 10) % den) den

/-- Drop trailing `'0'` characters from a digit string. -/
def stripTrailingZeros (ds : List Char) : List Char :=
  (ds.reverse.dropWhile (fun c => c = '0')).reverse

/-- The exponential-notation string JavaScript's number-to-string conversion
produces for an integer of magnitude at least `1e21` (`String(1e21)` is
`"1e+21"`, `String(1.5e21)` is `"1.5e+21"`): leading digit, a fractional part
holding the remaining significant digits if there are any, then `e+` and the
decimal exponent.  The mantissa digits are taken exactly from the integer
(double shortest-round-trip rounding is not modelled, consistent with `JsNum`
holding exact rationals in place of doubles). -/
def expStrNat (n : Nat) : List Char :=
  match stripTrailingZeros (natStr n) with
  | [] => []
  | d :: rest =>
      (d :: (if rest.isEmpty then [] else '.' :: rest)) ++
        ('e' :: '+' :: natStr ((natStr n).length - 1))

/-- Exponential notation of an integer of magnitude at least `1e21`. -/
def expStr (i : Int) : List Char :=
  (if i < 0 then ['-'] else []) ++ expStrNat i.natAbs

/-- The string JavaScript produces for a `JsNum` via a template literal.
Integral values of magnitude below `1e21` print as plain decimal digits;
from `1e21` on JavaScript switches to exponential notation.  Non-integral
values print in positional notation (the exponential forms JavaScript uses
for non-integral magnitudes below `1e-6` or at least `1e21` are not modelled:
no claim below constructs such a value). -/
def jsNumToString : JsNum → List Char
  | .nan => ['N', 'a', 'N']
  | .posInf => "Infinity".data
  | .negInf => "-Infinity".data
  | .fin q =>
      if q.den = 1 then
        if q.num.natAbs < 10 ^ 21 then intStr q.num else expStr q.num
      else
        (if q < 0 then ['-'] else []) ++ natStr (q.num.natAbs / q.den) ++
          ('.' :: fracDigits 1100 (q.num.natAbs % q.den) q.den)

/-! ## `isNumber` (src/number/util.ts)

`isNumber(v) = !Number.isNaN(Number(v)) && v !== ''`.  The lexer only ever
applies it to one-character strings (or to the `'EOF'` sentinel / the empty
string, both of which fail).  Under JavaScript's `Number()` coercion a digit
character converts to its value and a whitespace character converts to `0`
(so whitespace characters satisfy `isNumber`!); every other single character
converts to `NaN`. -/

/-- Characters JavaScript's `Number()` coercion trims / coerces to `0`
(ASCII subset; the inputs here contain no Unicode whitespace). -/
def jsWs (c : Char) : Bool :=
  c = ' ' || c = '\t' || c = '\n' || c = '\r' || c = '\x0b' || c = '\x0c'

/-- `isNumber` from `util.ts` on a single character: true exactly for digit
characters and whitespace characters (JavaScript coerces whitespace-only
strings to `0`). -/
def isNumberChar (c : Char) : Bool := c.isDigit || jsWs c

/-! ## `Number(string)` on lexer lexemes

`Parser.parseNumber` applies JavaScript's `Number()` to the current token's
lexeme.  The lexемes this lexer can produce are: runs of digits and
whitespace with an optional leading sign, single characters, runs of
comparison characters, and the `'EOF'` sentinel string.  On that universe
`Number()` is: trim whitespace; the empty remainder is `0`; an optional
sign followed by a nonempty run of digits is that integer; everything else
is `NaN`.  (Decimal points, exponents, hex and `Infinity` literals never
occur inside this lexer's lexemes: `'.'` fails `isNumber`, so `readNumber`
never crosses it.) -/

/-- The natural number denoted by a digit string (most significant first). -/
def digitsToNat (ds : List Char) : Nat :=
  ds.foldl (fun acc c => 10 * acc + (c.toNat - 48)) 0

/-- Trim JavaScript whitespace from both ends of a string. -/
def trimWs (l : List Char) : List Char :=
  ((l.dropWhile jsWs).reverse.dropWhile jsWs).reverse

/-- JavaScript `Number(v)` restricted to the strings this lexer produces. -/
def jsToNumber (v : List Char) : JsNum :=
  match trimWs v with
  | [] => .fin 0
  | c :: rest =>
      let core := if c = '-' || c = '+' then rest else c :: rest
      if core ≠ [] ∧ core.all (fun d => d.isDigit) then
        .fin (if c = '-' then -(digitsToNat core : ℚ) else (digitsToNat core : ℚ))
      else .nan

/-! ## Operations (src/number/number.ts)

The source `Operation` is a tuple `(apply, symbol, priority)`; exactly four
are defined (`sum`, `sub`, `mul`, `div`).  We enumerate them. -/

inductive Operation where
  | sum : Operation
  | sub : Operation
  | mul : Operation
  | div : Operation
deriving DecidableEq, Repr

/-- `Operation[0]`: the numeric function. -/
def Operation.apply : Operation → JsNum → JsNum → JsNum
  | .sum => jsAdd
  | .sub => jsSub
  | .mul => jsMul
  | .div => jsDiv

/-- `Operation[1]`: the infix renderer, e.g. ``(a, b) => `${a} + ${b}` ``. -/
def Operation.symbolStr : Operation → List Char → List Char → List Char
  | .sum, a, b => a ++ (' ' :: '+' :: ' ' :: b)
  | .sub, a, b => a ++ (' ' :: '-' :: ' ' :: b)
  | .mul, a, b => a ++ (' ' :: '*' :: ' ' :: b)
  | .div, a, b => a ++ (' ' :: '/' :: ' ' :: b)

/-- `Operation[2]`: the priority (0 additive, 1 multiplicative). -/
def Operation.priority : Operation → Int
  | .sum => 0
  | .sub => 0
  | .mul => 1
  | .div => 1

/-! ## The expression tree (`Number` in src/number/number.ts)

The source `Number` is a tuple `[valueFn, stringFn, priority, left, right]`
whose first two fields are closures built only by `identity` and `compound`.
Trees built from the public constructors are therefore exactly this inductive
type; `get`, `numToString`, `getLevel`, `getDepth` below compute what the
stored closures / fields compute. -/

inductive NumberT where
  | identity : JsNum → NumberT
  | compound : NumberT → Operation → NumberT → NumberT
deriving DecidableEq, Repr

/-- `compoundFromValues(a, o, b) = compound(identity(a), o, identity(b))`. -/
def compoundFromValues (a : JsNum) (o : Operation) (b : JsNum) : NumberT :=
  .compound (.identity a) o (.identity b)

/-- `num[2]`: the node's priority, `-1` on a leaf (`identity`), else the
operation's priority. -/
def NumberT.pri : NumberT → Int
  | .identity _ => -1
  | .compound _ o _ => o.priority

/-- `num[3]`: the left child (`null` on a leaf). -/
def NumberT.left : NumberT → Option NumberT
  | .identity _ => none
  | .compound a _ _ => some a

/-- `num[4]`: the right child (`null` on a leaf). -/
def NumberT.right : NumberT → Option NumberT
  | .identity _ => none
  | .compound _ _ b => some b

/-- `get(num) = num[0]()`: lazy evaluation of the tree. -/
def NumberT.get : NumberT → JsNum
  | .identity a => a
  | .compound a o b => o.apply a.get b.get

/-- `numToString(num) = num[1]()`: infix rendering.  On a compound node the
source closure is an if / else-if chain: the right child is wrapped in
parentheses when it is a compound of strictly lower priority, OTHERWISE the
left child is wrapped when it is a compound of strictly lower priority,
otherwise neither is wrapped. -/
def NumberT.numToString : NumberT → List Char
  | .identity a => jsNumToString a
  | .compound a o b =>
      if b.pri ≠ -1 ∧ b.pri < o.priority then
        o.symbolStr a.numToString ('(' :: b.numToString ++ [')'])
      else if a.pri ≠ -1 ∧ a.pri < o.priority then
        o.symbolStr ('(' :: a.numToString ++ [')']) b.numToString
      else
        o.symbolStr a.numToString b.numToString

/-- The non-null case of `getLevel`, structurally on the tree: a leaf's two
children are `null` (each contributing `[]`), a compound recurses into both
children. -/
def NumberT.getLevelSome : NumberT → Int → List NumberT
  | num, level =>
      if level ≤ 0 then [num]
      else
        match num with
        | .identity _ => [] ++ []
        | .compound a _ b => a.getLevelSome (level - 1) ++ b.getLevelSome (level - 1)

/-- `getLevel(num, level)` from src/number/number.ts: `null` gives `[]`,
`level <= 0` gives `[num]`, otherwise the concatenation of both children's
lists at `level - 1` (a `null` child contributing `[]`). -/
def getLevel : Option NumberT → Int → List NumberT
  | none, _ => []
  | some num, level => num.getLevelSome level

/-- The non-null case of `getDepth`, structurally on the tree: a leaf's two
children are `null` (each contributing `level + 1`), a compound recurses into
both children. -/
def NumberT.getDepthSome : NumberT → Int → Int
  | .identity _, level => max (level + 1) (level + 1)
  | .compound a _ b, level => max (a.getDepthSome (level + 1)) (b.getDepthSome (level + 1))

/-- `getDepth(num, level = -1)` from src/number/number.ts: `null` gives the
running `level`; otherwise the larger of the children's depths at
`level + 1`. -/
def getDepth : Option NumberT → Int → Int
  | none, level => level
  | some num, level => num.getDepthSome level

/-! ## Tokens (src/number/lexer.ts) -/

inductive TokenType where
  | Illegal
  | EOF
  | StartParenthesis
  | StartBracket
  | StartBrace
  | EndParenthesis
  | EndBracket
  | EndBrace
  | Number
  | Sum
  | Sub
  | Mul
  | Div
  | Equal
  | EqualOrGreaterThan
  | EqualOrLessThan
  | LessThan
  | GreaterThan
  | Similar
deriving DecidableEq, Repr

/-- A lexer token: `Token[0]` is the kind (`typ`), `Token[1]` the lexeme
(`value`). -/
structure Token where
  typ : TokenType
  value : List Char
deriving DecidableEq, Repr

/-- The character the lexer is looking at: either a real input character or
the end-of-input sentinel (the JavaScript code stores the three-character
string `'EOF'` in its `char` field past the end). -/
inductive Ch where
  | chr : Char → Ch
  | eof : Ch
deriving DecidableEq, Repr

/-- `input.charAt(i)` guarded by the length check the lexer performs:
past the end it yields the `'EOF'` sentinel. -/
def charAt (input : List Char) (i : Nat) : Ch :=
  if h : i < input.length then .chr input[i] else .eof

/-- `isNumber` applied to the lexer's current/peek/last character: the
`'EOF'` sentinel (and JavaScript's `''`) fail `isNumber`. -/
def isNumberCh : Ch → Bool
  | .chr c => isNumberChar c
  | .eof => false

/-- The single-character entries of the `TokenString` map. -/
def tokenStringChar (c : Char) : Option TokenType :=
  if c = '(' then some .StartParenthesis
  else if c = '[' then some .StartBracket
  else if c = '\x7b' then some .StartBrace
  else if c = ')' then some .EndParenthesis
  else if c = ']' then some .EndBracket
  else if c = '\x7d' then some .EndBrace
  else if c = '+' then some .Sum
  else if c = '-' then some .Sub
  else if c = '*' then some .Mul
  else if c = '/' then some .Div
  else if c = '=' then some .Equal
  else if c = '<' then some .LessThan
  else if c = '>' then some .GreaterThan
  else if c = '~' then some .Similar
  else none

/-- The `'EOF'` sentinel as a string value. -/
def eofValue : List Char := ['E', 'O', 'F']

/-- The full `TokenString` map on arbitrary lexemes (used to classify the
result of `readComparation`): the `'EOF'` entry, the two two-character
comparison entries, and the single-character entries. -/
def tokenStringStr (v : List Char) : Option TokenType :=
  if v = eofValue then some .EOF
  else if v = ['<', '='] then some .EqualOrLessThan
  else if v = ['>', '='] then some .EqualOrGreaterThan
  else
    match v with
    | [c] => tokenStringChar c
    | _ => none

/-- `ComparationSymbols`: the one-character comparison token kinds. -/
def ComparationSymbols : List TokenType := [.Equal, .LessThan, .GreaterThan, .Similar]

/-! ## The lexer (src/number/lexer.ts)

The JavaScript class stores `input`, `position`, `readPosition`, `char` and
`line`.  The constructor immediately calls `readChar()`, and `readChar` sets
`position := readPosition; readPosition := readPosition + 1`, so
`readPosition = position + 1` always holds, and `char` always equals
`input.charAt(position)` (the `'EOF'` sentinel once `position` is past the
end).  The embedding therefore stores only `input`, `position` and `line`
and computes `char`/`peekChar` from them. -/

structure Lexer where
  input : List Char
  position : Nat
  line : Nat
deriving DecidableEq, Repr

/-- `new Lexer(expression)`: after the constructor's `readChar()`,
`position = 0`, `readPosition = 1`, `line = 0`. -/
def Lexer.new (expression : List Char) : Lexer := ⟨expression, 0, 0⟩

/-- `readChar()`: advance by one character (the `char` field is derived). -/
def Lexer.readChar (l : Lexer) : Lexer := { l with position := l.position + 1 }

/-- The current character `this.char`. -/
def Lexer.char (l : Lexer) : Ch := charAt l.input l.position

/-- `peekChar()`: the character at `readPosition = position + 1`. -/
def Lexer.peekChar (l : Lexer) : Ch := charAt l.input (l.position + 1)

/-- `lastChar()`: the raw character just before `position` (whitespace
included); the NUL character at position 0.  When `position - 1` is past the
end JavaScript's `charAt` gives `''` while `charAt` here gives the sentinel;
both fail `isNumber`, the only consumer of `lastChar`. -/
def Lexer.lastChar (l : Lexer) : Ch :=
  if l.position = 0 then .chr (Char.ofNat 0) else charAt l.input (l.position - 1)

/-- `isSignedNumber()`: the current character is `'+'` or `'-'`, the next
character satisfies `isNumber`, and the raw previous character does not. -/
def Lexer.isSignedNumber (l : Lexer) : Bool :=
  (l.char = Ch.chr '+' || l.char = Ch.chr '-') && isNumberCh l.peekChar
    && !(isNumberCh l.lastChar)

/-- `input.slice(a, b)` (clamping like JavaScript's `slice`). -/
def jsSlice (input : List Char) (a b : Nat) : List Char := (input.take b).drop a

/-! The three lexer loops advance `position` while looking at a real input
character, so `input.length - position` bounds their iteration counts.  Each
loop is written structurally over that bound (`gas`); with
`gas = input.length - position` the `gas = 0` case is only reached with the
scan position at or past the end of the input, where the loop's own guard
(a real character is required) stops it anyway, so the budget never cuts an
iteration short (the `..._gas_irrel` lemmas below make this exact). -/

/-- The loop of `readNumber()`: `while (isNumber(this.peekChar())) readChar()`. -/
def Lexer.readNumberLoopAux : Nat → Lexer → Lexer
  | 0, l => l
  | gas + 1, l =>
      match charAt l.input (l.position + 1) with
      | .chr c =>
          if isNumberChar c then Lexer.readNumberLoopAux gas { l with position := l.position + 1 }
          else l
      | .eof => l

/-- `readNumber()`: run the loop, then slice from the start position to
`readPosition = position + 1`. -/
def Lexer.readNumber (l : Lexer) : Lexer × List Char :=
  let l2 := Lexer.readNumberLoopAux (l.input.length - l.position) l
  (l2, jsSlice l.input l.position (l2.position + 1))

/-- The loop of `readComparation()`: keep advancing while the next character
is (the string of) a one-character comparison token.  Past the end
`peekChar()` yields `'EOF'`, whose token kind `EOF` is not a comparison
symbol, so the loop also stops there. -/
def Lexer.readComparationLoopAux : Nat → Lexer → Lexer
  | 0, l => l
  | gas + 1, l =>
      match charAt l.input (l.position + 1) with
      | .chr c =>
          match tokenStringChar c with
          | some t =>
              if t ∈ ComparationSymbols then
                Lexer.readComparationLoopAux gas { l with position := l.position + 1 }
              else l
          | none => l
      | .eof => l

/-- `readComparation()`: run the loop, slice from the start position to
`readPosition`. -/
def Lexer.readComparation (l : Lexer) : Lexer × List Char :=
  let l2 := Lexer.readComparationLoopAux (l.input.length - l.position) l
  (l2, jsSlice l.input l.position (l2.position + 1))

/-- The loop of `skipWhitespace()`: skip spaces, newlines (counting them),
tabs and carriage returns. -/
def Lexer.skipWhitespaceAux : Nat → Lexer → Lexer
  | 0, l => l
  | gas + 1, l =>
      match charAt l.input l.position with
      | .chr c =>
          if c = ' ' ∨ c = '\n' ∨ c = '\t' ∨ c = '\r' then
            Lexer.skipWhitespaceAux gas
              { l with position := l.position + 1,
                       line := if c = '\n' then l.line + 1 else l.line }
          else l
      | .eof => l

/-- `skipWhitespace()`. -/
def Lexer.skipWhitespace (l : Lexer) : Lexer :=
  Lexer.skipWhitespaceAux (l.input.length - l.position) l

/-- `nextToken()`.  After skipping whitespace: a character with a comparison
token kind is read greedily with `readComparation` and reclassified by the
full map (unknown runs become `Illegal`); any other mapped character is a
one-character token unless `isSignedNumber()` holds, in which case
`readTokenType` reads a signed number literal with kind `Number`; an unmapped
character satisfying `isNumber` is a number literal read with `readNumber`;
anything else is `Illegal`.  At end of input the `'EOF'` sentinel is mapped
to the `EOF` kind with the lexeme `'EOF'`.  The final `readChar()` of the
source always runs. -/
def Lexer.nextToken (l : Lexer) : Lexer × Token :=
  let l1 := l.skipWhitespace
  match l1.char with
  | .eof => (l1.readChar, ⟨.EOF, eofValue⟩)
  | .chr c =>
      match tokenStringChar c with
      | some t =>
          if t ∈ ComparationSymbols then
            let q := l1.readComparation
            (q.1.readChar, ⟨(tokenStringStr q.2).getD .Illegal, q.2⟩)
          else if l1.isSignedNumber then
            let q := l1.readNumber
            (q.1.readChar, ⟨.Number, q.2⟩)
          else
            (l1.readChar, ⟨t, [c]⟩)
      | none =>
          if isNumberChar c then
            let q := l1.readNumber
            (q.1.readChar, ⟨if q.2 = [] then .Illegal else .Number, q.2⟩)
          else
            (l1.readChar, ⟨.Illegal, [c]⟩)

/-- `getLine()`: newline characters consumed so far. -/
def Lexer.getLine (l : Lexer) : Nat := l.line

/-- The first `n` tokens `nextToken()` produces from a lexer state. -/
def lexTokensN : Nat → Lexer → List Token
  | 0, _ => []
  | n + 1, l =>
      let q := l.nextToken
      q.2 :: lexTokensN n q.1

/-! ## The parser (src/number/parser.ts)

`Operations` maps the four operator token kinds to their operations;
`GroupDelimiters` maps each group start symbol to its end symbol. -/

/-- `Operations.get` on a token kind. -/
def OperationsGet : TokenType → Option Operation
  | .Sum => some .sum
  | .Sub => some .sub
  | .Mul => some .mul
  | .Div => some .div
  | _ => none

/-- `GroupDelimiters.get` on a lexeme. -/
def GroupDelimitersGet : List Char → Option (List Char)
  | ['('] => some [')']
  | ['['] => some [']']
  | ['\x7b'] => some ['\x7d']
  | _ => none

/-- `Array.from(GroupDelimiters.keys()).includes(v)`. -/
def isGroupStart (v : List Char) : Bool :=
  decide (v = ['(']) || decide (v = ['[']) || decide (v = ['\x7b'])

/-- The errors `Parser` can throw, one constructor per `throw` site, plus
`fuelOut` for exhaustion of the recursion budget of this embedding (the
JavaScript functions have no such budget; every theorem below either fixes a
budget large enough for the input at hand or quantifies over budgets). -/
inductive PErr where
  | expectedOperation (t : TokenType)
  | unknownGroupSymbol (v : List Char)
  | groupUndefined
  | inputUndefined
  | fuelOut
deriving DecidableEq, Repr

/-- The parser state: its lexer, the last parsed tree, the current token and
the one-token lookahead. -/
structure Parser where
  lexer : Lexer
  last : Option NumberT
  token : Token
  peekToken : Token
deriving DecidableEq, Repr

/-- `new Parser(lexer)`: pull two tokens to fill `token` and `peekToken`. -/
def Parser.new (lexer : Lexer) : Parser :=
  let q1 := lexer.nextToken
  let q2 := q1.1.nextToken
  ⟨q2.1, none, q1.2, q2.2⟩

/-- `Parser.nextToken()`: shift the lookahead and pull one more token. -/
def Parser.nextToken (p : Parser) : Parser :=
  let q := p.lexer.nextToken
  { p with lexer := q.1, token := p.peekToken, peekToken := q.2 }

/-- `parseNumber()`: wrap `Number(token[1])` as a leaf — with no check that
the current token is a number literal. -/
def Parser.parseNumber (p : Parser) : NumberT := .identity (jsToNumber p.token.value)

mutual

/-- `parseExpression(last)`.  Without a left operand it is `parseNumber()`
(consuming nothing).  Otherwise the current token must be an operation;
advance; a group-start lexeme makes the right operand a group; otherwise
parse a candidate number and look at the token after it: a strictly
higher-priority operation continues recursively seeded with the candidate,
anything else combines directly. -/
def parseExpressionF : Nat → Parser → Option NumberT → Except PErr (NumberT × Parser)
  | 0, _, _ => .error .fuelOut
  | _ + 1, p, none => .ok (p.parseNumber, p)
  | fuel + 1, p, some last =>
      match OperationsGet p.token.typ with
      | none => .error (.expectedOperation p.token.typ)
      | some operation =>
          if isGroupStart p.nextToken.token.value then
            match parseGroupF fuel p.nextToken with
            | .error e => .error e
            | .ok (g, p2) => .ok (.compound last operation g, p2)
          else
            match parseExpressionF fuel p.nextToken none with
            | .error e => .error e
            | .ok (nextNum, p2) =>
                match OperationsGet p2.peekToken.typ with
                | some nextOperation =>
                    if operation.priority < nextOperation.priority then
                      match parseExpressionF fuel p2.nextToken (some nextNum) with
                      | .error e => .error e
                      | .ok (r, p4) => .ok (.compound last operation r, p4)
                    else .ok (.compound last operation p2.parseNumber, p2)
                | none => .ok (.compound last operation p2.parseNumber, p2)
termination_by structural fuel _ _ => fuel

/-- `parseGroup()`: the current lexeme must be a known group start; record
its end symbol, advance past it, and run the group loop. -/
def parseGroupF : Nat → Parser → Except PErr (NumberT × Parser)
  | 0, _ => .error .fuelOut
  | fuel + 1, p =>
      match GroupDelimitersGet p.token.value with
      | none => .error (.unknownGroupSymbol p.token.value)
      | some delimiter => parseGroupLoopF fuel p.nextToken delimiter none

/-- The `while (true)` loop of `parseGroup()`: stop when the current lexeme
equals the recorded end symbol (failing if nothing was parsed), else parse an
expression seeded with what the group has so far and advance. -/
def parseGroupLoopF : Nat → Parser → List Char → Option NumberT →
    Except PErr (NumberT × Parser)
  | 0, _, _, _ => .error .fuelOut
  | fuel + 1, p, delimiter, groupNum =>
      if p.token.value = delimiter then
        match groupNum with
        | none => .error .groupUndefined
        | some g => .ok (g, p)
      else
        match parseExpressionF fuel p groupNum with
        | .error e => .error e
        | .ok (g, p1) => parseGroupLoopF fuel p1.nextToken delimiter (some g)
termination_by structural fuel _ _ _ => fuel

/-- `parseValue()`: dispatch on whether the current lexeme opens a group. -/
def parseValueF : Nat → Parser → Except PErr (NumberT × Parser)
  | 0, _ => .error .fuelOut
  | fuel + 1, p =>
      if isGroupStart p.token.value then parseGroupF fuel p
      else parseExpressionF fuel p p.last

/-- The `while (true)` loop of `parse()`: until the current token is `EOF`,
set `last` to `parseValue()` and advance. -/
def parseLoopF : Nat → Parser → Except PErr Parser
  | 0, _ => .error .fuelOut
  | fuel + 1, p =>
      if p.token.typ = .EOF then .ok p
      else
        match parseValueF fuel p with
        | .error e => .error e
        | .ok (v, p1) => parseLoopF fuel ({ p1 with last := some v }).nextToken
termination_by structural fuel _ => fuel

end

/-- Equality of `Except` results is decidable (needed to evaluate concrete
parses inside proofs). -/
instance {ε α : Type} [DecidableEq ε] [DecidableEq α] : DecidableEq (Except ε α) := fun a b =>
  match a, b with
  | .error e1, .error e2 =>
      if h : e1 = e2 then isTrue (by rw [h]) else isFalse (by intro hc; cases hc; exact h rfl)
  | .error _, .ok _ => isFalse (by intro hc; cases hc)
  | .ok _, .error _ => isFalse (by intro hc; cases hc)
  | .ok v1, .ok v2 =>
      if h : v1 = v2 then isTrue (by rw [h]) else isFalse (by intro hc; cases hc; exact h rfl)

/-- `parse()`: run the loop; fail if no value was produced at all. -/
def parseF (fuel : Nat) (p : Parser) : Except PErr NumberT :=
  match parseLoopF fuel p with
  | .error e => .error e
  | .ok p1 =>
      match p1.last with
      | none => .error .inputUndefined
      | some t => .ok t

/-- Parse an input string: `new Parser(new Lexer(s)).parse()`. -/
def parseInput (fuel : Nat) (s : List Char) : Except PErr NumberT :=
  parseF fuel (Parser.new (Lexer.new s))

/-- `get(parse(s))`: parse and evaluate. -/
def evalParse (fuel : Nat) (s : List Char) : Except PErr JsNum :=
  match parseInput fuel s with
  | .error e => .error e
  | .ok t => .ok t.get

/-! ## Auxiliary notions used by the statements below -/

/-- The token the lexer produces at end of input. -/
def eofToken : Token := ⟨.EOF, eofValue⟩

/-- The depth of a tree as the specification words it: the number of
Compound levels strictly above the deepest Leaf (a lone Leaf has depth 0).
Stated from the spec, to be compared with the code's `getDepth`. -/
def depthSpec : NumberT → Nat
  | .identity _ => 0
  | .compound a _ b => 1 + max (depthSpec a) (depthSpec b)

/-- Follow a root-to-node path (`false` = left child, `true` = right child);
`some` exactly when the path exists in the tree.  `nodeAt t p = some x` says
`x` sits exactly `p.length` edges below the root of `t`. -/
def nodeAt : NumberT → List Bool → Option NumberT
  | t, [] => some t
  | .identity _, _ :: _ => none
  | .compound a _ b, dir :: rest => nodeAt (if dir then b else a) rest

/-- Wrap a rendered string in parentheses. -/
def wrapParens (s : List Char) : List Char := '(' :: (s ++ [')'])

/-- The rendering rule exactly as the specification sentence for C2 words
it: EACH child independently is wrapped in parentheses iff that child is a
Compound (priority not `-1`) of priority strictly below the parent
operation's.  Stated from the spec, to be compared with the code's
`numToString`. -/
def claimRender : NumberT → List Char
  | .identity a => jsNumToString a
  | .compound a o b =>
      o.symbolStr
        (if a.pri ≠ -1 ∧ a.pri < o.priority then wrapParens (claimRender a) else claimRender a)
        (if b.pri ≠ -1 ∧ b.pri < o.priority then wrapParens (claimRender b) else claimRender b)

end Jer

namespace Jer

/-- The infix character of each operation's renderer. -/
def opChar : Operation → Char
  | .sum => '+'
  | .sub => '-'
  | .mul => '*'
  | .div => '/'

/-- The operator token kind corresponding to each operation. -/
def opTokType : Operation → TokenType
  | .sum => .Sum
  | .sub => .Sub
  | .mul => .Mul
  | .div => .Div

end Jer

/-! # Theorems

Shared helper lemmas come first, then the claim theorems (one per claim,
with a witness where the theorem carries a hypothesis) and, for refuted
claims, the counterexample theorems. -/

namespace Jer

/-- Bridge between the code's `getDepth` recursion and the specification's
depth notion: starting the recursion at `level`, a node contributes
`level + 1 + depthSpec`. -/
theorem getDepthSome_eq (t : NumberT) :
    ∀ level : Int, t.getDepthSome level = level + 1 + (depthSpec t : Int) := by
  induction t with
  | identity v => intro level; simp [NumberT.getDepthSome, depthSpec]
  | compound a o b iha ihb =>
      intro level
      simp only [NumberT.getDepthSome, depthSpec, iha, ihb]
      push_cast
      omega

/-- A path that exists in a tree is no longer than the tree's depth. -/
theorem nodeAt_length_le (t : NumberT) :
    ∀ (p : List Bool) (x : NumberT), nodeAt t p = some x → p.length ≤ depthSpec t := by
  induction t with
  | identity v =>
      intro p x h
      cases p with
      | nil => simp
      | cons d rest => simp [nodeAt] at h
  | compound a o b iha ihb =>
      intro p x h
      cases p with
      | nil => simp
      | cons d rest =>
          simp only [nodeAt] at h
          cases d with
          | false =>
              have := iha rest x (by simpa using h)
              simp only [depthSpec, List.length_cons]
              omega
          | true =>
              have := ihb rest x (by simpa using h)
              simp only [depthSpec, List.length_cons]
              omega

/-- `getLevel` at level `0` is the root alone, whatever the node. -/
theorem getLevelSome_zero (t : NumberT) : t.getLevelSome 0 = [t] := by
  cases t <;> simp [NumberT.getLevelSome]

/-- Membership in `getLevel` is exactly existence of a path of that length. -/
theorem getLevelSome_mem (t : NumberT) :
    ∀ (k : Nat) (x : NumberT),
      x ∈ t.getLevelSome (k : Int) ↔ ∃ p : List Bool, p.length = k ∧ nodeAt t p = some x := by
  induction t with
  | identity v =>
      intro k x
      cases k with
      | zero =>
          rw [Nat.cast_zero, getLevelSome_zero]
          simp only [List.mem_singleton]
          constructor
          · rintro rfl; exact ⟨[], rfl, rfl⟩
          · rintro ⟨p, hp, hx⟩
            have hp' : p = [] := List.length_eq_zero.mp hp
            subst hp'
            simp only [nodeAt, Option.some.injEq] at hx
            exact hx.symm
      | succ j =>
          simp only [NumberT.getLevelSome]
          rw [if_neg (by omega)]
          simp only [List.append_nil, List.not_mem_nil, false_iff]
          rintro ⟨p, hp, hx⟩
          cases p with
          | nil => simp at hp
          | cons d rest => simp [nodeAt] at hx
  | compound a o b iha ihb =>
      intro k x
      cases k with
      | zero =>
          rw [Nat.cast_zero, getLevelSome_zero]
          simp only [List.mem_singleton]
          constructor
          · rintro rfl; exact ⟨[], rfl, rfl⟩
          · rintro ⟨p, hp, hx⟩
            have hp' : p = [] := List.length_eq_zero.mp hp
            subst hp'
            simp only [nodeAt, Option.some.injEq] at hx
            exact hx.symm
      | succ j =>
          simp only [NumberT.getLevelSome]
          rw [if_neg (by omega)]
          have hcast : ((j + 1 : Nat) : Int) - 1 = (j : Int) := by push_cast; omega
          rw [hcast, List.mem_append, iha j x, ihb j x]
          constructor
          · rintro (⟨p, hp, hx⟩ | ⟨p, hp, hx⟩)
            · exact ⟨false :: p, by simp [hp], by simpa [nodeAt] using hx⟩
            · exact ⟨true :: p, by simp [hp], by simpa [nodeAt] using hx⟩
          · rintro ⟨p, hp, hx⟩
            cases p with
            | nil => simp at hp
            | cons d rest =>
                cases d with
                | false =>
                    exact Or.inl ⟨rest, by simpa using hp, by simpa [nodeAt] using hx⟩
                | true =>
                    exact Or.inr ⟨rest, by simpa using hp, by simpa [nodeAt] using hx⟩

/-- C9: `getDepth` computes the number of Compound levels strictly above the
deepest Leaf: `getDepth(null, base) = base`; a lone Leaf has depth `0`; a
non-null node is the larger of its two children's depths computed with
`base + 1`; in general `getDepth(node, base) = base + 1 + depth(node)`; and
the spec's example tree has depth `3`. -/
theorem C9_theorem :
    (∀ base : Int, getDepth none base = base) ∧
    (∀ x : JsNum, getDepth (some (.identity x)) (-1) = 0) ∧
    (∀ (a : NumberT) (o : Operation) (b : NumberT) (base : Int),
      getDepth (some (.compound a o b)) base =
        max (getDepth (some a) (base + 1)) (getDepth (some b) (base + 1))) ∧
    (∀ (t : NumberT) (base : Int), getDepth (some t) base = base + 1 + (depthSpec t : Int)) ∧
    (∀ x a b c d : JsNum,
      getDepth (some (.compound (.identity x) .mul
        (.compound (compoundFromValues a .sum b) .div (compoundFromValues c .sub d)))) (-1) = 3) := by
  refine ⟨fun base => rfl, fun x => rfl, fun a o b base => rfl, ?_, ?_⟩
  · intro t base
    exact getDepthSome_eq t base
  · intro x a b c d
    rfl


/-- C8: `getLevel(tree, level)` returns exactly the nodes located `level`
edges below the root (the root itself at level 0); it returns `[]` on a null
node and whenever `level` exceeds the depth of every path; and on the spec's
example tree level 3 is exactly the four leaves `a, b, c, d`. -/
theorem C8_theorem :
    (∀ k : Int, getLevel none k = []) ∧
    (∀ t : NumberT, getLevel (some t) 0 = [t]) ∧
    (∀ (t : NumberT) (k : Nat) (x : NumberT),
      x ∈ getLevel (some t) (k : Int) ↔
        ∃ p : List Bool, p.length = k ∧ nodeAt t p = some x) ∧
    (∀ (t : NumberT) (k : Nat),
      getDepth (some t) (-1) < (k : Int) → getLevel (some t) (k : Int) = []) ∧
    (∀ x a b c d : JsNum,
      getLevel (some (.compound (.identity x) .mul
        (.compound (compoundFromValues a .sum b) .div (compoundFromValues c .sub d)))) 3 =
        [.identity a, .identity b, .identity c, .identity d]) := by
  refine ⟨fun k => rfl, fun t => getLevelSome_zero t, fun t k x => getLevelSome_mem t k x,
    ?_, fun x a b c d => rfl⟩
  intro t k hk
  rw [List.eq_nil_iff_forall_not_mem]
  intro x hx
  obtain ⟨p, hp, hpath⟩ := (getLevelSome_mem t k x).mp hx
  have hle : p.length ≤ depthSpec t := nodeAt_length_le t p x hpath
  have hdepth : getDepth (some t) (-1) = -1 + 1 + (depthSpec t : Int) := getDepthSome_eq t (-1)
  omega

/-- C8 witness: level 1 of a lone leaf (depth 0) is empty. -/
theorem C8_witness :
    getDepth (some (NumberT.identity (.fin 0))) (-1) < ((1 : Nat) : Int) ∧
    getLevel (some (NumberT.identity (.fin 0))) ((1 : Nat) : Int) = [] :=
  ⟨by decide, C8_theorem.2.2.2.1 (NumberT.identity (.fin 0)) 1 (by decide)⟩


/-- C2 counterexample: when BOTH children are lower-priority compounds, the
code parenthesizes only the right child — `(1+2) * (3+4)` renders as
`"1 + 2 * (3 + 4)"`, not `"(1 + 2) * (3 + 4)"` as the claim's
independent-children rule (`claimRender`) demands. -/
theorem C2_counterexample :
    (NumberT.compound (compoundFromValues (.fin 1) .sum (.fin 2)) .mul
      (compoundFromValues (.fin 3) .sum (.fin 4))).numToString = "1 + 2 * (3 + 4)".data ∧
    claimRender (NumberT.compound (compoundFromValues (.fin 1) .sum (.fin 2)) .mul
      (compoundFromValues (.fin 3) .sum (.fin 4))) = "(1 + 2) * (3 + 4)".data ∧
    (NumberT.compound (compoundFromValues (.fin 1) .sum (.fin 2)) .mul
      (compoundFromValues (.fin 3) .sum (.fin 4))).numToString ≠
      claimRender (NumberT.compound (compoundFromValues (.fin 1) .sum (.fin 2)) .mul
        (compoundFromValues (.fin 3) .sum (.fin 4))) := by
  refine ⟨by decide, by decide, by decide⟩

/-- C2 (amended): rendering wraps the right child iff it is a Compound of
strictly lower priority; it wraps the left child iff the left child so
qualifies AND the right child does not (the right-child test returns first,
so at most one child is ever parenthesized); equal-priority children are
never wrapped; the spec's example and its mirror render as stated. -/
theorem C2_theorem :
    (∀ (a : NumberT) (o : Operation) (b : NumberT),
      (NumberT.compound a o b).numToString =
        o.symbolStr
          (if a.pri ≠ -1 ∧ a.pri < o.priority ∧ ¬(b.pri ≠ -1 ∧ b.pri < o.priority) then
            wrapParens a.numToString else a.numToString)
          (if b.pri ≠ -1 ∧ b.pri < o.priority then
            wrapParens b.numToString else b.numToString)) ∧
    (NumberT.compound (compoundFromValues (.fin 294105) .sub (.fin 78522)) .mul
      (.identity (.fin 19538))).numToString = "(294105 - 78522) * 19538".data ∧
    (NumberT.compound (.identity (.fin 19538)) .mul
      (compoundFromValues (.fin 294105) .sub (.fin 78522))).numToString =
      "19538 * (294105 - 78522)".data := by
  refine ⟨?_, by decide, by decide⟩
  intro a o b
  by_cases hb : b.pri ≠ -1 ∧ b.pri < o.priority
  · simp [NumberT.numToString, hb, wrapParens]
  · by_cases ha : a.pri ≠ -1 ∧ a.pri < o.priority
    · simp [NumberT.numToString, hb, ha, wrapParens]
    · simp [NumberT.numToString, hb, ha]


/-! One-step unfolding equations for the fueled parser functions (all hold
by definition; they give precise control in the proofs below). -/

/-- Unfold `parseExpressionF` at a successor budget, no left operand. -/
theorem parseExpressionF_succ_none (fuel : Nat) (p : Parser) :
    parseExpressionF (fuel + 1) p none = .ok (p.parseNumber, p) := rfl

/-- Unfold `parseExpressionF` at a successor budget, with a left operand. -/
theorem parseExpressionF_succ_some (fuel : Nat) (p : Parser) (last : NumberT) :
    parseExpressionF (fuel + 1) p (some last) =
      (match OperationsGet p.token.typ with
      | none => .error (.expectedOperation p.token.typ)
      | some operation =>
          if isGroupStart p.nextToken.token.value then
            match parseGroupF fuel p.nextToken with
            | .error e => .error e
            | .ok (g, p2) => .ok (.compound last operation g, p2)
          else
            match parseExpressionF fuel p.nextToken none with
            | .error e => .error e
            | .ok (nextNum, p2) =>
                match OperationsGet p2.peekToken.typ with
                | some nextOperation =>
                    if operation.priority < nextOperation.priority then
                      match parseExpressionF fuel p2.nextToken (some nextNum) with
                      | .error e => .error e
                      | .ok (r, p4) => .ok (.compound last operation r, p4)
                    else .ok (.compound last operation p2.parseNumber, p2)
                | none => .ok (.compound last operation p2.parseNumber, p2)) := rfl

/-- Unfold `parseGroupF` at a successor budget. -/
theorem parseGroupF_succ (fuel : Nat) (p : Parser) :
    parseGroupF (fuel + 1) p =
      (match GroupDelimitersGet p.token.value with
      | none => .error (.unknownGroupSymbol p.token.value)
      | some delimiter => parseGroupLoopF fuel p.nextToken delimiter none) := rfl

/-- Unfold `parseGroupLoopF` at a successor budget. -/
theorem parseGroupLoopF_succ (fuel : Nat) (p : Parser) (delimiter : List Char)
    (groupNum : Option NumberT) :
    parseGroupLoopF (fuel + 1) p delimiter groupNum =
      (if p.token.value = delimiter then
        match groupNum with
        | none => .error .groupUndefined
        | some g => .ok (g, p)
      else
        match parseExpressionF fuel p groupNum with
        | .error e => .error e
        | .ok (g, p1) => parseGroupLoopF fuel p1.nextToken delimiter (some g)) := rfl

/-- Unfold `parseValueF` at a successor budget. -/
theorem parseValueF_succ (fuel : Nat) (p : Parser) :
    parseValueF (fuel + 1) p =
      (if isGroupStart p.token.value then parseGroupF fuel p
      else parseExpressionF fuel p p.last) := rfl

/-- Unfold `parseLoopF` at a successor budget. -/
theorem parseLoopF_succ (fuel : Nat) (p : Parser) :
    parseLoopF (fuel + 1) p =
      (if p.token.typ = .EOF then .ok p
      else
        match parseValueF fuel p with
        | .error e => .error e
        | .ok (v, p1) => parseLoopF fuel ({ p1 with last := some v }).nextToken) := rfl

/-- Adding one unit of recursion budget never changes a parser result other
than curing budget exhaustion. -/
theorem parseMonoAll : ∀ fuel : Nat,
    (∀ p l, parseExpressionF fuel p l ≠ .error .fuelOut →
      parseExpressionF (fuel + 1) p l = parseExpressionF fuel p l) ∧
    (∀ p d gn, parseGroupLoopF fuel p d gn ≠ .error .fuelOut →
      parseGroupLoopF (fuel + 1) p d gn = parseGroupLoopF fuel p d gn) ∧
    (∀ p, parseGroupF fuel p ≠ .error .fuelOut →
      parseGroupF (fuel + 1) p = parseGroupF fuel p) ∧
    (∀ p, parseValueF fuel p ≠ .error .fuelOut →
      parseValueF (fuel + 1) p = parseValueF fuel p) ∧
    (∀ p, parseLoopF fuel p ≠ .error .fuelOut →
      parseLoopF (fuel + 1) p = parseLoopF fuel p) := by
  intro fuel
  induction fuel with
  | zero =>
      refine ⟨?_, ?_, ?_, ?_, ?_⟩
      · intro p l h; exact absurd rfl h
      · intro p d gn h; exact absurd rfl h
      · intro p h; exact absurd rfl h
      · intro p h; exact absurd rfl h
      · intro p h; exact absurd rfl h
  | succ fuel ih =>
      obtain ⟨ihE, ihGL, ihG, ihV, ihL⟩ := ih
      have hE : ∀ p l, parseExpressionF (fuel + 1) p l ≠ .error .fuelOut →
          parseExpressionF (fuel + 1 + 1) p l = parseExpressionF (fuel + 1) p l := by
        intro p l h
        cases l with
        | none => rfl
        | some last =>
            rw [parseExpressionF_succ_some] at h ⊢
            rw [parseExpressionF_succ_some]
            cases hop : OperationsGet p.token.typ with
            | none => rfl
            | some operation =>
                rw [hop] at h
                dsimp only at h ⊢
                by_cases hg : isGroupStart p.nextToken.token.value = true
                · rw [if_pos hg] at h
                  rw [if_pos hg, if_pos hg]
                  cases hgr : parseGroupF fuel p.nextToken with
                  | error e =>
                      rw [hgr] at h
                      have hne : parseGroupF fuel p.nextToken ≠ .error .fuelOut := by
                        rw [hgr]
                        intro hc
                        exact h hc
                      rw [ihG _ hne, hgr]
                  | ok pair =>
                      have hne : parseGroupF fuel p.nextToken ≠ .error .fuelOut := by
                        rw [hgr]; simp
                      rw [ihG _ hne, hgr]
                · rw [if_neg hg] at h
                  rw [if_neg hg, if_neg hg]
                  cases hnn : parseExpressionF fuel p.nextToken none with
                  | error e =>
                      rw [hnn] at h
                      have hne : parseExpressionF fuel p.nextToken none ≠ .error .fuelOut := by
                        rw [hnn]
                        intro hc
                        exact h hc
                      rw [ihE _ _ hne, hnn]
                  | ok pair =>
                      obtain ⟨nextNum, p2⟩ := pair
                      have hne : parseExpressionF fuel p.nextToken none ≠ .error .fuelOut := by
                        rw [hnn]; simp
                      rw [ihE _ _ hne, hnn]
                      rw [hnn] at h
                      dsimp only at h ⊢
                      cases hop2 : OperationsGet p2.peekToken.typ with
                      | none => rfl
                      | some nextOperation =>
                          rw [hop2] at h
                          dsimp only at h ⊢
                          by_cases hpr : operation.priority < nextOperation.priority
                          · rw [if_pos hpr] at h
                            rw [if_pos hpr, if_pos hpr]
                            cases hrec : parseExpressionF fuel p2.nextToken (some nextNum) with
                            | error e =>
                                rw [hrec] at h
                                have hne2 : parseExpressionF fuel p2.nextToken (some nextNum) ≠
                                    .error .fuelOut := by
                                  rw [hrec]
                                  intro hc
                                  exact h hc
                                rw [ihE _ _ hne2, hrec]
                            | ok pair2 =>
                                have hne2 : parseExpressionF fuel p2.nextToken (some nextNum) ≠
                                    .error .fuelOut := by
                                  rw [hrec]; simp
                                rw [ihE _ _ hne2, hrec]
                          · rw [if_neg hpr, if_neg hpr]
      have hGL : ∀ p d gn, parseGroupLoopF (fuel + 1) p d gn ≠ .error .fuelOut →
          parseGroupLoopF (fuel + 1 + 1) p d gn = parseGroupLoopF (fuel + 1) p d gn := by
        intro p d gn h
        rw [parseGroupLoopF_succ] at h ⊢
        rw [parseGroupLoopF_succ]
        by_cases hd : p.token.value = d
        · rw [if_pos hd, if_pos hd]
        · rw [if_neg hd] at h
          rw [if_neg hd, if_neg hd]
          cases hexp : parseExpressionF fuel p gn with
          | error e =>
              rw [hexp] at h
              have hne : parseExpressionF fuel p gn ≠ .error .fuelOut := by
                rw [hexp]
                intro hc
                exact h hc
              rw [ihE _ _ hne, hexp]
          | ok pair =>
              obtain ⟨g, p1⟩ := pair
              have hne : parseExpressionF fuel p gn ≠ .error .fuelOut := by
                rw [hexp]; simp
              rw [ihE _ _ hne, hexp]
              rw [hexp] at h
              dsimp only at h ⊢
              exact ihGL _ _ _ h
      have hG : ∀ p, parseGroupF (fuel + 1) p ≠ .error .fuelOut →
          parseGroupF (fuel + 1 + 1) p = parseGroupF (fuel + 1) p := by
        intro p h
        rw [parseGroupF_succ] at h ⊢
        rw [parseGroupF_succ]
        cases hdel : GroupDelimitersGet p.token.value with
        | none => rfl
        | some delimiter =>
            rw [hdel] at h
            dsimp only at h ⊢
            exact ihGL _ _ _ h
      have hV : ∀ p, parseValueF (fuel + 1) p ≠ .error .fuelOut →
          parseValueF (fuel + 1 + 1) p = parseValueF (fuel + 1) p := by
        intro p h
        rw [parseValueF_succ] at h ⊢
        rw [parseValueF_succ]
        by_cases hg : isGroupStart p.token.value = true
        · rw [if_pos hg] at h
          rw [if_pos hg, if_pos hg]
          exact ihG _ h
        · rw [if_neg hg] at h
          rw [if_neg hg, if_neg hg]
          exact ihE _ _ h
      have hL : ∀ p, parseLoopF (fuel + 1) p ≠ .error .fuelOut →
          parseLoopF (fuel + 1 + 1) p = parseLoopF (fuel + 1) p := by
        intro p h
        rw [parseLoopF_succ] at h ⊢
        rw [parseLoopF_succ]
        by_cases he : p.token.typ = TokenType.EOF
        · rw [if_pos he, if_pos he]
        · rw [if_neg he] at h
          rw [if_neg he, if_neg he]
          cases hv : parseValueF fuel p with
          | error e =>
              rw [hv] at h
              dsimp only at h
              have he2 : e ≠ PErr.fuelOut := by
                intro hcc
                exact h (by rw [hcc])
              have hne : parseValueF fuel p ≠ .error .fuelOut := by
                rw [hv]
                intro hc
                exact he2 (by injection hc)
              rw [ihV _ hne, hv]
          | ok pair =>
              obtain ⟨v, p1⟩ := pair
              have hne : parseValueF fuel p ≠ .error .fuelOut := by
                rw [hv]; simp
              rw [ihV _ hne, hv]
              rw [hv] at h
              dsimp only at h ⊢
              exact ihL _ h
      exact ⟨hE, hGL, hG, hV, hL⟩


/-- A non-exhausted `parseLoopF` result is stable under any larger budget. -/
theorem parseLoopF_mono (p : Parser) {fuel m : Nat} (hle : fuel ≤ m)
    (h : parseLoopF fuel p ≠ .error .fuelOut) : parseLoopF m p = parseLoopF fuel p := by
  induction m, hle using Nat.le_induction with
  | base => rfl
  | succ m hm ihm =>
      rw [← ihm]
      exact (parseMonoAll m).2.2.2.2 p (by rw [ihm]; exact h)

/-- A non-exhausted `parse` result is stable under any larger budget. -/
theorem parseInput_mono (s : List Char) {fuel m : Nat} (hle : fuel ≤ m)
    (h : parseInput fuel s ≠ .error .fuelOut) : parseInput m s = parseInput fuel s := by
  have hlp : parseLoopF fuel (Parser.new (Lexer.new s)) ≠ .error .fuelOut := by
    intro hc
    apply h
    unfold parseInput parseF
    rw [hc]
  unfold parseInput parseF
  rw [parseLoopF_mono _ hle hlp]


/-- Past the end of input, `nextToken()` returns the `EOF` token and just
advances the scan position. -/
theorem nextToken_pastEnd (l : Lexer) (h : l.input.length ≤ l.position) :
    l.nextToken = (l.readChar, eofToken) := by
  have hz : l.input.length - l.position = 0 := Nat.sub_eq_zero_of_le h
  have hskip : l.skipWhitespace = l := by
    unfold Lexer.skipWhitespace
    rw [hz]
    rfl
  have hchar : l.char = Ch.eof := by
    unfold Lexer.char charAt
    rw [dif_neg (by omega)]
  unfold Lexer.nextToken
  rw [hskip]
  dsimp only
  rw [hchar]
  rfl

/-- Once the current and lookahead tokens are `EOF` and the lexer is past
the end, `Parser.nextToken` keeps all three conditions. -/
theorem parserNextToken_exhausted (p : Parser) (hp : p.peekToken = eofToken)
    (hlen : p.lexer.input.length ≤ p.lexer.position) :
    p.nextToken.token = eofToken ∧ p.nextToken.peekToken = eofToken ∧
      p.nextToken.lexer.input.length ≤ p.nextToken.lexer.position := by
  unfold Parser.nextToken
  rw [nextToken_pastEnd _ hlen]
  refine ⟨hp, rfl, ?_⟩
  simp only [Lexer.readChar]
  omega

/-- The group loop cannot consume end-of-input tokens forever: in the
exhausted state (current and lookahead tokens `EOF`, lexer past the end) it
raises `expected an operation got: EOF` within two iterations, for any
expected closing delimiter and any accumulated group value. -/
theorem parseGroupLoopF_exhausted (p : Parser) (d : List Char) (gn : Option NumberT)
    (fuel : Nat) (ht : p.token = eofToken) (hp : p.peekToken = eofToken)
    (hlen : p.lexer.input.length ≤ p.lexer.position)
    (hd : d = [')'] ∨ d = [']'] ∨ d = ['\x7d']) (hf : 3 ≤ fuel) :
    parseGroupLoopF fuel p d gn = .error (.expectedOperation .EOF) := by
  have hdne : eofToken.value ≠ d := by
    rcases hd with rfl | rfl | rfl <;> decide
  obtain ⟨k, rfl⟩ : ∃ k, fuel = k + 3 := ⟨fuel - 3, by omega⟩
  have hstep : ∀ (m : Nat) (g : NumberT), parseGroupLoopF (m + 2) p d (some g) =
      .error (.expectedOperation .EOF) := by
    intro m g
    rw [show m + 2 = (m + 1) + 1 from rfl, parseGroupLoopF_succ]
    rw [ht]
    rw [if_neg hdne]
    rw [parseExpressionF_succ_some]
    rw [ht]
    rfl
  cases gn with
  | some g => exact hstep (k + 1) g
  | none =>
      rw [show k + 3 = (k + 2) + 1 from rfl, parseGroupLoopF_succ]
      rw [ht]
      rw [if_neg hdne]
      rw [show k + 2 = (k + 1) + 1 from rfl, parseExpressionF_succ_none]
      dsimp only
      obtain ⟨ht2, hp2, hlen2⟩ := parserNextToken_exhausted p hp hlen
      rw [show k + 1 + 1 = (k : Nat) + 1 + 1 from rfl]
      rw [parseGroupLoopF_succ]
      rw [ht2]
      rw [if_neg hdne]
      rw [parseExpressionF_succ_some]
      rw [ht2]
      rfl


/-- Evaluating after a known parse at a possibly larger budget. -/
theorem evalParse_mono_of {s : List Char} {t : NumberT} {fuel m : Nat}
    (hle : fuel ≤ m) (h : parseInput fuel s = .ok t) : evalParse m s = .ok t.get := by
  unfold evalParse
  rw [parseInput_mono s hle (by rw [h]; simp), h]

/-- A known erroneous parse persists at any larger budget. -/
theorem parseInput_error_mono {s : List Char} {e : PErr} {fuel m : Nat}
    (hle : fuel ≤ m) (he : e ≠ .fuelOut) (h : parseInput fuel s = .error e) :
    parseInput m s = .error e := by
  rw [parseInput_mono s hle (by rw [h]; intro hc; exact he (by injection hc)), h]

/-- C4 counterexample: the input `"[ ( ]"` leaves its `(` unmatched — no
`)` ever appears — yet `parse` succeeds, returning a `NaN` leaf: the group
loop consumed the `(` as a number literal (`Number('(')` is `NaN`). -/
theorem C4_counterexample :
    parseInput 32 ("[ ( ]".data) = .ok (.identity .nan) ∧
    evalParse 32 ("[ ( ]".data) = .ok .nan := by
  refine ⟨by decide, ?_⟩
  unfold evalParse
  rw [show parseInput 32 ("[ ( ]".data) = .ok (.identity .nan) from by decide]
  rfl

/-- C4 (amended): on unmatched-opener inputs such as `"(5"` and `"("`,
`parse` terminates by raising an error, and the group loop never spins on
end-of-input tokens — in the exhausted state it errors within two
iterations — but an unmatched opener does NOT always produce an error: an
opener immediately following another opener is consumed as a `NaN` number
literal, so `"[ ( ]"` parses successfully to a `NaN` leaf. -/
theorem C4_theorem :
    (∀ fuel, 32 ≤ fuel → parseInput fuel ("(5".data) = .error (.expectedOperation .EOF)) ∧
    (∀ fuel, 32 ≤ fuel → parseInput fuel ("(".data) = .error (.expectedOperation .EOF)) ∧
    (∀ (p : Parser) (d : List Char) (gn : Option NumberT) (fuel : Nat),
      p.token = eofToken → p.peekToken = eofToken →
      p.lexer.input.length ≤ p.lexer.position →
      (d = [')'] ∨ d = [']'] ∨ d = ['\x7d']) → 3 ≤ fuel →
      parseGroupLoopF fuel p d gn = .error (.expectedOperation .EOF)) ∧
    (∀ fuel, 32 ≤ fuel → parseInput fuel ("[ ( ]".data) = .ok (.identity .nan)) := by
  refine ⟨?_, ?_, parseGroupLoopF_exhausted, ?_⟩
  · intro fuel hf
    exact parseInput_error_mono hf (by decide) (by decide)
  · intro fuel hf
    exact parseInput_error_mono hf (by decide) (by decide)
  · intro fuel hf
    rw [parseInput_mono _ hf (by rw [show parseInput 32 ("[ ( ]".data) = .ok (.identity .nan) from by decide]; simp)]
    decide

/-- C4 witness: the exhausted-loop part applied at a concrete exhausted
state, and the `"(5"` error at budget 32. -/
theorem C4_witness :
    ((⟨⟨"(5".data, 4, 0⟩, none, eofToken, eofToken⟩ : Parser).token = eofToken ∧
      3 ≤ 3 ∧ 32 ≤ 32) ∧
    parseGroupLoopF 3 ⟨⟨"(5".data, 4, 0⟩, none, eofToken, eofToken⟩ [')'] none =
      .error (.expectedOperation .EOF) ∧
    parseInput 32 ("(5".data) = .error (.expectedOperation .EOF) :=
  ⟨⟨rfl, by decide, by decide⟩,
    C4_theorem.2.2.1 ⟨⟨"(5".data, 4, 0⟩, none, eofToken, eofToken⟩ [')'] none 3
      rfl rfl (by decide) (Or.inl rfl) (by decide),
    C4_theorem.1 32 (by decide)⟩


/-- C3 counterexample: on the lone operator input `"+"` the parser does NOT
raise — `parseNumber` wraps `Number('+') = NaN` as a leaf and `parse`
returns that tree. -/
theorem C3_counterexample :
    parseInput 32 ("+".data) = .ok (.identity .nan) ∧
    parseInput 32 ("@".data) = .ok (.identity .nan) := by
  exact ⟨by decide, by decide⟩

/-- C3 (amended): `parseNumber` performs no token-kind check: a non-number
lexeme in operand position is converted with `Number()` and becomes a `NaN`
leaf, so `"+"` and `"@"` parse successfully to `NaN` leaves; an error is
raised only when a non-operator token sits in operator position, e.g.
`"5 @ 3"` fails with `expected an operation got: Illegal`. -/
theorem C3_theorem :
    (∀ fuel, 32 ≤ fuel → parseInput fuel ("+".data) = .ok (.identity .nan)) ∧
    (∀ fuel, 32 ≤ fuel → parseInput fuel ("@".data) = .ok (.identity .nan)) ∧
    (∀ fuel, 32 ≤ fuel → parseInput fuel ("5 @ 3".data) =
      .error (.expectedOperation .Illegal)) ∧
    (∀ p : Parser, p.parseNumber = .identity (jsToNumber p.token.value)) := by
  refine ⟨?_, ?_, ?_, fun p => rfl⟩
  · intro fuel hf
    rw [parseInput_mono _ hf
      (by rw [show parseInput 32 ("+".data) = .ok (.identity .nan) from by decide]; simp)]
    decide
  · intro fuel hf
    rw [parseInput_mono _ hf
      (by rw [show parseInput 32 ("@".data) = .ok (.identity .nan) from by decide]; simp)]
    decide
  · intro fuel hf
    exact parseInput_error_mono hf (by decide) (by decide)

/-- C3 witness: the first amended conjunct at budget 32. -/
theorem C3_witness :
    32 ≤ 32 ∧ parseInput 32 ("+".data) = .ok (.identity .nan) :=
  ⟨by decide, C3_theorem.1 32 (by decide)⟩

/-- C5: operator priority via the one-token lookahead:
`evaluate(parse("12 * 199 - 5")) = 2383` and
`evaluate(parse("111 - 156 * 2")) = -201`; the higher-priority trailing
`*` binds tighter (tree shape of the second input), and equal-priority
chains group left-to-right (`16 + 21 + 9` parses as `(16 + 21) + 9`). -/
theorem C5_theorem :
    (∀ fuel, 32 ≤ fuel → evalParse fuel ("12 * 199 - 5".data) = .ok (.fin 2383)) ∧
    (∀ fuel, 32 ≤ fuel → evalParse fuel ("111 - 156 * 2".data) = .ok (.fin (-201))) ∧
    (∀ fuel, 32 ≤ fuel → parseInput fuel ("111 - 156 * 2".data) =
      .ok (.compound (.identity (.fin 111)) .sub
        (.compound (.identity (.fin 156)) .mul (.identity (.fin 2))))) ∧
    (∀ fuel, 32 ≤ fuel → parseInput fuel ("16 + 21 + 9".data) =
      .ok (.compound (.compound (.identity (.fin 16)) .sum (.identity (.fin 21))) .sum
        (.identity (.fin 9)))) := by
  have h1 : parseInput 32 ("12 * 199 - 5".data) =
      .ok (.compound (.compound (.identity (.fin 12)) .mul (.identity (.fin 199))) .sub
        (.identity (.fin 5))) := by decide
  have h2 : parseInput 32 ("111 - 156 * 2".data) =
      .ok (.compound (.identity (.fin 111)) .sub
        (.compound (.identity (.fin 156)) .mul (.identity (.fin 2)))) := by decide
  have h3 : parseInput 32 ("16 + 21 + 9".data) =
      .ok (.compound (.compound (.identity (.fin 16)) .sum (.identity (.fin 21))) .sum
        (.identity (.fin 9))) := by decide
  refine ⟨?_, ?_, ?_, ?_⟩
  · intro fuel hf
    rw [evalParse_mono_of hf h1]
    simp only [NumberT.get, Operation.apply, jsMul, jsSub, jsAdd, jsNeg]
    norm_num
  · intro fuel hf
    rw [evalParse_mono_of hf h2]
    simp only [NumberT.get, Operation.apply, jsMul, jsSub, jsAdd, jsNeg]
    norm_num
  · intro fuel hf
    rw [parseInput_mono _ hf (by rw [h2]; simp), h2]
  · intro fuel hf
    rw [parseInput_mono _ hf (by rw [h3]; simp), h3]

/-- C5 witness: the first conjunct at budget 32. -/
theorem C5_witness :
    32 ≤ 32 ∧ evalParse 32 ("12 * 199 - 5".data) = .ok (.fin 2383) :=
  ⟨by decide, C5_theorem.1 32 (by decide)⟩


/-- Classification of the token `nextToken()` produces when the character
after whitespace skipping is `'+'` or `'-'`: a `Number` token read by
`readNumber` when `isSignedNumber()` holds, else the bare operator token. -/
theorem nextToken_sign (l : Lexer) (c : Char) (hc : l.skipWhitespace.char = Ch.chr c)
    (hpm : c = '+' ∨ c = '-') :
    (l.nextToken).2 =
      if l.skipWhitespace.isSignedNumber then
        Token.mk .Number (l.skipWhitespace.readNumber).2
      else Token.mk (if c = '+' then TokenType.Sum else TokenType.Sub) [c] := by
  unfold Lexer.nextToken
  dsimp only
  rw [hc]
  rcases hpm with rfl | rfl
  · dsimp only
    rw [show tokenStringChar '+' = some TokenType.Sum from rfl]
    dsimp only
    rw [if_neg (by decide : ¬ TokenType.Sum ∈ ComparationSymbols)]
    by_cases hs : l.skipWhitespace.isSignedNumber = true
    · rw [if_pos hs, if_pos hs]
    · rw [if_neg hs, if_neg hs]
      rfl
  · dsimp only
    rw [show tokenStringChar '-' = some TokenType.Sub from rfl]
    dsimp only
    rw [if_neg (by decide : ¬ TokenType.Sub ∈ ComparationSymbols)]
    by_cases hs : l.skipWhitespace.isSignedNumber = true
    · rw [if_pos hs, if_pos hs]
    · rw [if_neg hs, if_neg hs]
      rfl


/-- C6: a `'+'` or `'-'` at the lexer's (post-whitespace) position is folded
into the following digits as the sign of a single `Number` token **iff** the
immediately following character satisfies `isNumber` and the raw immediately
preceding character (whitespace included) does not; when folded the lexeme
is the `readNumber` run; consequently `evaluate(parse("10 + (-10)")) = 0`. -/
theorem C6_theorem :
    (∀ (l : Lexer) (c : Char), l.skipWhitespace.char = Ch.chr c → (c = '+' ∨ c = '-') →
      (((l.nextToken).2.typ = TokenType.Number) ↔
        (isNumberCh l.skipWhitespace.peekChar = true ∧
          isNumberCh l.skipWhitespace.lastChar = false)) ∧
      ((l.nextToken).2.typ = TokenType.Number →
        (l.nextToken).2.value = (l.skipWhitespace.readNumber).2)) ∧
    (∀ fuel, 32 ≤ fuel → evalParse fuel ("10 + (-10)".data) = .ok (.fin 0)) := by
  constructor
  · intro l c hc hpm
    have hts := nextToken_sign l c hc hpm
    by_cases hs : l.skipWhitespace.isSignedNumber = true
    · rw [if_pos hs] at hts
      have hsexp : isNumberCh l.skipWhitespace.peekChar = true ∧
          isNumberCh l.skipWhitespace.lastChar = false := by
        unfold Lexer.isSignedNumber at hs
        rw [hc] at hs
        rcases hpm with rfl | rfl <;> simp at hs <;> exact ⟨hs.1, hs.2⟩
      refine ⟨?_, ?_⟩
      · rw [hts]
        exact ⟨fun _ => hsexp, fun _ => rfl⟩
      · intro _
        rw [hts]
    · rw [if_neg hs] at hts
      have htypne : (l.nextToken).2.typ ≠ TokenType.Number := by
        rw [hts]
        rcases hpm with rfl | rfl <;> simp
      refine ⟨?_, ?_⟩
      · constructor
        · intro h
          exact absurd h htypne
        · rintro ⟨h1, h2⟩
          exfalso
          apply hs
          unfold Lexer.isSignedNumber
          rw [hc]
          rcases hpm with rfl | rfl <;> simp [h1, h2]
      · intro h
        exact absurd h htypne
  · intro fuel hf
    rw [evalParse_mono_of hf
      (show parseInput 32 ("10 + (-10)".data) =
        .ok (.compound (.identity (.fin 10)) .sum (.identity (.fin (-10)))) from by decide)]
    simp only [NumberT.get, Operation.apply, jsAdd]
    norm_num

/-- C6 witness: the lexer of `"(-10)"` standing on the `'-'` folds it into
the literal `-10`. -/
theorem C6_witness :
    (Lexer.mk ("(-10)".data) 1 0).skipWhitespace.char = Ch.chr '-' ∧
    ((((Lexer.mk ("(-10)".data) 1 0).nextToken).2.typ = TokenType.Number) ↔
      (isNumberCh (Lexer.mk ("(-10)".data) 1 0).skipWhitespace.peekChar = true ∧
        isNumberCh (Lexer.mk ("(-10)".data) 1 0).skipWhitespace.lastChar = false)) ∧
    (((Lexer.mk ("(-10)".data) 1 0).nextToken).2.typ = TokenType.Number →
      ((Lexer.mk ("(-10)".data) 1 0).nextToken).2.value =
        ((Lexer.mk ("(-10)".data) 1 0).skipWhitespace.readNumber).2) :=
  ⟨by decide, C6_theorem.1 (Lexer.mk ("(-10)".data) 1 0) '-' (by decide) (Or.inr rfl)⟩

/-- C10 counterexample: `"10 -5"` parses successfully to `10 - 5 = 5`
(the claim asserts it fails with an `expected an operation` error). -/
theorem C10_counterexample :
    parseInput 32 ("10 -5".data) =
      .ok (.compound (.identity (.fin 10)) .sub (.identity (.fin 5))) ∧
    evalParse 32 ("10 -5".data) = .ok (.fin 5) := by
  refine ⟨by decide, ?_⟩
  rw [evalParse_mono_of (Nat.le_refl 32)
    (show parseInput 32 ("10 -5".data) =
      .ok (.compound (.identity (.fin 10)) .sub (.identity (.fin 5))) from by decide)]
  simp only [NumberT.get, Operation.apply, jsSub, jsNeg, jsAdd]
  norm_num

/-- C10 (amended): because whitespace satisfies `isNumber`
(`Number(' ') = 0`), a sign whose raw preceding character is whitespace or a
digit is never folded: whenever the preceding character satisfies
`isNumber`, the `'+'`/`'-'` is lexed as an operator token, so `"10 -5"`
lexes as number, minus-operator, number, and parses successfully to `5`. -/
theorem C10_theorem :
    (∀ fuel, 32 ≤ fuel → parseInput fuel ("10 -5".data) =
      .ok (.compound (.identity (.fin 10)) .sub (.identity (.fin 5)))) ∧
    (lexTokensN 4 (Lexer.new ("10 -5".data)) =
      [⟨.Number, "10 ".data⟩, ⟨.Sub, ['-']⟩, ⟨.Number, ['5']⟩, eofToken]) ∧
    (∀ (l : Lexer) (c : Char), l.skipWhitespace.char = Ch.chr c → (c = '+' ∨ c = '-') →
      isNumberCh l.skipWhitespace.lastChar = true →
      (l.nextToken).2.typ ≠ TokenType.Number) := by
  refine ⟨?_, by decide, ?_⟩
  · intro fuel hf
    rw [parseInput_mono _ hf (by
      rw [show parseInput 32 ("10 -5".data) =
        .ok (.compound (.identity (.fin 10)) .sub (.identity (.fin 5))) from by decide]
      simp)]
    decide
  · intro l c hc hpm hlast
    have hts := nextToken_sign l c hc hpm
    by_cases hs : l.skipWhitespace.isSignedNumber = true
    · exfalso
      unfold Lexer.isSignedNumber at hs
      rw [hc, hlast] at hs
      rcases hpm with rfl | rfl <;> simp at hs
    · rw [if_neg hs] at hts
      rw [hts]
      rcases hpm with rfl | rfl <;> simp

/-- C10 witness: the lexer of `"10 -5"` standing on the `'-'` (preceded by a
space, which satisfies `isNumber`) does not fold it. -/
theorem C10_witness :
    (Lexer.mk ("10 -5".data) 3 0).skipWhitespace.char = Ch.chr '-' ∧
    isNumberCh (Lexer.mk ("10 -5".data) 3 0).skipWhitespace.lastChar = true ∧
    ((Lexer.mk ("10 -5".data) 3 0).nextToken).2.typ ≠ TokenType.Number :=
  ⟨by decide, by decide,
    C10_theorem.2.2 (Lexer.mk ("10 -5".data) 3 0) '-' (by decide) (Or.inr rfl) (by decide)⟩


/-- A real character at `i` means `i` is inside the input. -/
theorem charAt_lt {input : List Char} {i : Nat} {c : Char}
    (h : charAt input i = .chr c) : i < input.length := by
  unfold charAt at h
  split at h
  · assumption
  · exact absurd h (by simp)

/-- A real character at `i` is a member of the input. -/
theorem charAt_mem {input : List Char} {i : Nat} {c : Char}
    (h : charAt input i = .chr c) : c ∈ input := by
  unfold charAt at h
  split at h
  · simp only [Ch.chr.injEq] at h
    rw [← h]
    exact List.getElem_mem _
  · exact absurd h (by simp)

/-- On an input consisting only of skippable whitespace, the whitespace
loop reaches the end of input (preserving the input). -/
theorem skipWhitespaceAux_allWs : ∀ (gas : Nat) (l : Lexer),
    (∀ c ∈ l.input, c = ' ' ∨ c = '\n' ∨ c = '\t' ∨ c = '\r') →
    l.input.length ≤ l.position + gas →
    (Lexer.skipWhitespaceAux gas l).input = l.input ∧
      l.input.length ≤ (Lexer.skipWhitespaceAux gas l).position := by
  intro gas
  induction gas with
  | zero =>
      intro l hws hlen
      unfold Lexer.skipWhitespaceAux
      exact ⟨rfl, by omega⟩
  | succ gas ih =>
      intro l hws hlen
      unfold Lexer.skipWhitespaceAux
      cases hch : charAt l.input l.position with
      | eof =>
          dsimp only
          refine ⟨rfl, ?_⟩
          by_cases hp : l.position < l.input.length
          · exact absurd hch (by unfold charAt; rw [dif_pos hp]; simp)
          · omega
      | chr c =>
          dsimp only
          rw [if_pos (hws c (charAt_mem hch))]
          exact ih _ (by exact hws) (by dsimp only; omega)

/-- On an all-whitespace input, `nextToken()` skips everything and returns
the `EOF` token, keeping the input and ending past its end. -/
theorem nextToken_allWs (l : Lexer)
    (hws : ∀ c ∈ l.input, c = ' ' ∨ c = '\n' ∨ c = '\t' ∨ c = '\r') :
    (l.nextToken).2 = eofToken ∧ (l.nextToken).1.input = l.input ∧
      l.input.length ≤ (l.nextToken).1.position := by
  obtain ⟨hinp, hlen⟩ :=
    skipWhitespaceAux_allWs (l.input.length - l.position) l hws (by omega)
  have hinp' : l.skipWhitespace.input = l.input := hinp
  have hlen' : l.input.length ≤ l.skipWhitespace.position := hlen
  have hchar : l.skipWhitespace.char = Ch.eof := by
    unfold Lexer.char charAt
    rw [dif_neg (by rw [hinp']; omega)]
  unfold Lexer.nextToken
  dsimp only
  rw [hchar]
  refine ⟨rfl, ?_, ?_⟩
  · exact hinp'
  · simp only [Lexer.readChar]
    omega

/-- C7: on the empty input and on inputs of only whitespace characters
(spaces, tabs, newlines, carriage returns), `parse` deterministically fails
with the `could not parse input: result is undefined` error, at every
sufficient recursion budget. -/
theorem C7_theorem (s : List Char)
    (hws : ∀ c ∈ s, c = ' ' ∨ c = '\n' ∨ c = '\t' ∨ c = '\r') :
    ∀ fuel, 1 ≤ fuel → parseInput fuel s = .error .inputUndefined := by
  intro fuel hf
  obtain ⟨k, rfl⟩ : ∃ k, fuel = k + 1 := ⟨fuel - 1, by omega⟩
  obtain ⟨ht1, hi1, hl1⟩ := nextToken_allWs (Lexer.new s) hws
  obtain ⟨ht2, hi2, hl2⟩ := nextToken_allWs ((Lexer.new s).nextToken).1 (by rw [hi1]; exact hws)
  unfold parseInput parseF Parser.new
  dsimp only
  rw [parseLoopF_succ, ht1]
  rw [if_pos (show eofToken.typ = TokenType.EOF from rfl)]


/-- C7 witness: whitespace of every kind, repeated three times, fails. -/
theorem C7_witness :
    (∀ c ∈ (" \n\t\r \n\t\r \n\t\r".data), c = ' ' ∨ c = '\n' ∨ c = '\t' ∨ c = '\r') ∧
    parseInput 1 (" \n\t\r \n\t\r \n\t\r".data) = .error .inputUndefined :=
  ⟨by decide, C7_theorem (" \n\t\r \n\t\r \n\t\r".data) (by decide) 1 (by decide)⟩


/-! Digit-string lemmas: the decimal rendering of a natural number is a
nonempty all-digit string that `Number()` converts back to the same
number. -/

/-- `Nat.digitChar` of a digit value is a digit character. -/
theorem digitChar_isDigit {d : Nat} (h : d < 10) : (Nat.digitChar d).isDigit = true := by
  interval_cases d <;> decide

/-- `Nat.digitChar` inverts to the digit value. -/
theorem digitChar_toNat {d : Nat} (h : d < 10) : (Nat.digitChar d).toNat - 48 = d := by
  interval_cases d <;> decide

/-- With enough budget, `digitsRevAux` yields a nonempty all-digit list. -/
theorem digitsRevAux_digits : ∀ (gas n : Nat), n + 1 ≤ gas →
    digitsRevAux gas n ≠ [] ∧ ∀ c ∈ digitsRevAux gas n, c.isDigit = true := by
  intro gas
  induction gas with
  | zero => intro n h; omega
  | succ gas ih =>
      intro n h
      unfold digitsRevAux
      by_cases hn : n < 10
      · rw [if_pos hn]
        refine ⟨by simp, ?_⟩
        intro c hc
        simp only [List.mem_singleton] at hc
        rw [hc]
        exact digitChar_isDigit hn
      · rw [if_neg hn]
        have hdiv : n / 10 < n := Nat.div_lt_self (by omega) (by omega)
        obtain ⟨_, hall⟩ := ih (n / 10) (by omega)
        refine ⟨by simp, ?_⟩
        intro c hc
        rcases List.mem_cons.mp hc with rfl | hc
        · exact digitChar_isDigit (Nat.mod_lt _ (by omega))
        · exact hall c hc

/-- `natStr n` is nonempty and all digits. -/
theorem natStr_digits (n : Nat) :
    natStr n ≠ [] ∧ ∀ c ∈ natStr n, c.isDigit = true := by
  obtain ⟨h1, h2⟩ := digitsRevAux_digits (n + 1) n (Nat.le_refl _)
  unfold natStr digitsRev
  exact ⟨by simpa using h1, fun c hc => h2 c (by simpa using hc)⟩

/-- Folding the digit-accumulator over the reversed `digitsRevAux` output
recovers the number. -/
theorem digitsRevAux_foldl : ∀ (gas n : Nat), n + 1 ≤ gas → ∀ acc : Nat,
    (digitsRevAux gas n).reverse.foldl (fun a c => 10 * a + (c.toNat - 48)) acc =
      acc * 10 ^ (digitsRevAux gas n).length + n := by
  intro gas
  induction gas with
  | zero => intro n h; omega
  | succ gas ih =>
      intro n h acc
      unfold digitsRevAux
      by_cases hn : n < 10
      · rw [if_pos hn]
        simp [digitChar_toNat hn]
        omega
      · rw [if_neg hn]
        have hdiv : n / 10 < n := Nat.div_lt_self (by omega) (by omega)
        simp only [List.reverse_cons, List.foldl_append, List.foldl_cons, List.foldl_nil,
          List.length_cons]
        rw [ih (n / 10) (by omega) acc]
        rw [digitChar_toNat (Nat.mod_lt _ (by omega))]
        have hmd : 10 * (n / 10) + n % 10 = n := by omega
        calc 10 * (acc * 10 ^ (digitsRevAux gas (n / 10)).length + n / 10) + n % 10
            = acc * (10 ^ (digitsRevAux gas (n / 10)).length * 10) + (10 * (n / 10) + n % 10) := by
              ring
          _ = acc * 10 ^ ((digitsRevAux gas (n / 10)).length + 1) + n := by
              rw [pow_succ, hmd]

/-- `Number()` recovers a natural number from its decimal rendering. -/
theorem digitsToNat_natStr (n : Nat) : digitsToNat (natStr n) = n := by
  unfold digitsToNat natStr digitsRev
  rw [digitsRevAux_foldl (n + 1) n (Nat.le_refl _) 0]
  simp


/-- Digit characters are not JavaScript whitespace. -/
theorem jsWs_of_digit {c : Char} (h : c.isDigit = true) : jsWs c = false := by
  unfold jsWs
  by_contra hc
  simp only [Bool.not_eq_false, Bool.or_eq_true, decide_eq_true_eq] at hc
  rcases hc with ((((rfl | rfl) | rfl) | rfl) | rfl) | rfl <;> exact absurd h (by decide)

/-- Dropping a false predicate changes nothing. -/
theorem dropWhile_of_forall_false {p : Char → Bool} :
    ∀ l : List Char, (∀ c ∈ l, p c = false) → l.dropWhile p = l := by
  intro l h
  cases l with
  | nil => rfl
  | cons a l => rw [List.dropWhile_cons, if_neg (by rw [h a (by simp)]; simp)]

/-- Trimming leaves an all-digit string unchanged. -/
theorem trimWs_digits {ds : List Char} (hd : ∀ c ∈ ds, c.isDigit = true) :
    trimWs ds = ds := by
  unfold trimWs
  rw [dropWhile_of_forall_false ds (fun c hc => jsWs_of_digit (hd c hc))]
  rw [dropWhile_of_forall_false ds.reverse
    (fun c hc => jsWs_of_digit (hd c (List.mem_reverse.mp hc)))]
  exact List.reverse_reverse ds

/-- Trimming an all-digit string with one trailing space gives the digits. -/
theorem trimWs_digits_space {ds : List Char} (hne : ds ≠ [])
    (hd : ∀ c ∈ ds, c.isDigit = true) : trimWs (ds ++ [' ']) = ds := by
  unfold trimWs
  have h1 : (ds ++ [' ']).dropWhile jsWs = ds ++ [' '] := by
    obtain ⟨c, rest, rfl⟩ := List.exists_cons_of_ne_nil hne
    rw [List.cons_append, List.dropWhile_cons,
      if_neg (by rw [jsWs_of_digit (hd c (by simp))]; simp)]
  rw [h1, List.reverse_append]
  simp only [List.reverse_singleton, List.singleton_append, List.dropWhile_cons]
  rw [if_pos (by decide)]
  rw [dropWhile_of_forall_false ds.reverse
    (fun c hc => jsWs_of_digit (hd c (List.mem_reverse.mp hc)))]
  exact List.reverse_reverse ds

/-- `Number()` on a nonempty all-digit string is the denoted number. -/
theorem jsToNumber_digits {ds : List Char} (hne : ds ≠ [])
    (hd : ∀ c ∈ ds, c.isDigit = true) : jsToNumber ds = .fin (digitsToNat ds) := by
  obtain ⟨c, rest, rfl⟩ := List.exists_cons_of_ne_nil hne
  have hc : c.isDigit = true := hd c (by simp)
  have hcm : c ≠ '-' := by intro h; rw [h] at hc; exact absurd hc (by decide)
  have hcp : c ≠ '+' := by intro h; rw [h] at hc; exact absurd hc (by decide)
  unfold jsToNumber
  rw [trimWs_digits hd]
  dsimp only
  rw [show (decide (c = '-') || decide (c = '+')) = false by simp [hcm, hcp]]
  simp only [Bool.false_eq_true, if_false]
  rw [if_pos ⟨by simp, by rw [List.all_eq_true]; exact hd⟩]
  rw [if_neg hcm]

/-- `Number()` on a nonempty all-digit string with one trailing space. -/
theorem jsToNumber_digits_space {ds : List Char} (hne : ds ≠ [])
    (hd : ∀ c ∈ ds, c.isDigit = true) :
    jsToNumber (ds ++ [' ']) = .fin (digitsToNat ds) := by
  obtain ⟨c, rest, hrest⟩ := List.exists_cons_of_ne_nil hne
  have hc : c.isDigit = true := hd c (by rw [hrest]; simp)
  have hcm : c ≠ '-' := by intro h; rw [h] at hc; exact absurd hc (by decide)
  have hcp : c ≠ '+' := by intro h; rw [h] at hc; exact absurd hc (by decide)
  unfold jsToNumber
  rw [trimWs_digits_space hne hd, hrest]
  dsimp only
  rw [show (decide (c = '-') || decide (c = '+')) = false by simp [hcm, hcp]]
  simp only [Bool.false_eq_true, if_false]
  rw [if_pos ⟨by simp, by rw [List.all_eq_true]; intro x hx; exact hd x (by rw [hrest]; exact hx)⟩]
  rw [if_neg hcm]

/-- The rendering of a natural-number leaf below the exponential-notation
threshold `1e21` is its decimal digit string. -/
theorem jsNumToString_natCast (n : Nat) (h : n < 10 ^ 21) :
    jsNumToString (.fin (n : ℚ)) = natStr n := by
  unfold jsNumToString
  dsimp only
  rw [if_pos (by rw [Rat.den_natCast])]
  rw [if_pos (by rw [Rat.num_natCast]; simpa using h)]
  unfold intStr
  rw [if_neg (by rw [Rat.num_natCast]; omega)]
  rw [Rat.num_natCast]
  simp


/-! Indexing lemmas for `charAt`, and symbolic runs of the lexer loops. -/

/-- `charAt` on the left part of an append. -/
theorem charAt_append_left {xs ys : List Char} {i : Nat} (h : i < xs.length) :
    charAt (xs ++ ys) i = charAt xs i := by
  unfold charAt
  rw [dif_pos (by simp; omega), dif_pos h]
  rw [List.getElem_append_left h]

/-- `charAt` on the right part of an append. -/
theorem charAt_append_right {xs ys : List Char} {i : Nat} (h : xs.length ≤ i) :
    charAt (xs ++ ys) i = charAt ys (i - xs.length) := by
  unfold charAt
  by_cases hy : i - xs.length < ys.length
  · rw [dif_pos (by simp; omega), dif_pos hy]
    rw [List.getElem_append_right h]
  · rw [dif_neg (by simp; omega), dif_neg hy]

/-- `charAt` at the head of a cons. -/
theorem charAt_cons_zero (c : Char) (ys : List Char) : charAt (c :: ys) 0 = .chr c := by
  unfold charAt
  rw [dif_pos (by simp)]
  rfl

/-- `charAt` past a cons. -/
theorem charAt_cons_succ (c : Char) (ys : List Char) (i : Nat) :
    charAt (c :: ys) (i + 1) = charAt ys i := by
  unfold charAt
  by_cases hy : i < ys.length
  · rw [dif_pos (by simp; omega), dif_pos hy]
    rfl
  · rw [dif_neg (by simp; omega), dif_neg hy]

/-- `charAt` past the end. -/
theorem charAt_past {xs : List Char} {i : Nat} (h : xs.length ≤ i) : charAt xs i = .eof := by
  unfold charAt
  rw [dif_neg (by omega)]

/-- Whitespace skipping is a no-op when the current character is not
skippable. -/
theorem skipWhitespace_noWs {l : Lexer} {c : Char}
    (hchar : charAt l.input l.position = .chr c)
    (hn : ¬(c = ' ' ∨ c = '\n' ∨ c = '\t' ∨ c = '\r')) : l.skipWhitespace = l := by
  unfold Lexer.skipWhitespace
  cases hg : l.input.length - l.position with
  | zero => rfl
  | succ k =>
      unfold Lexer.skipWhitespaceAux
      rw [hchar]
      dsimp only
      rw [if_neg hn]

/-- A symbolic run of the `readNumber` loop: with `k` further `isNumber`
characters ahead and a non-`isNumber` boundary after them, the loop advances
the position by exactly `k`. -/
theorem readNumberLoopAux_run : ∀ (k : Nat) (l : Lexer) (gas : Nat), k ≤ gas →
    (∀ i, i < k → ∃ d, charAt l.input (l.position + 1 + i) = .chr d ∧ isNumberChar d = true) →
    (∀ d, charAt l.input (l.position + 1 + k) = .chr d → isNumberChar d = false) →
    Lexer.readNumberLoopAux gas l = { l with position := l.position + k } := by
  intro k
  induction k with
  | zero =>
      intro l gas hg hrun hstop
      cases gas with
      | zero => rfl
      | succ g =>
          unfold Lexer.readNumberLoopAux
          cases hch : charAt l.input (l.position + 1) with
          | eof => rfl
          | chr d =>
              dsimp only
              rw [if_neg (by rw [hstop d (by simpa using hch)]; simp)]
              rfl
  | succ k ih =>
      intro l gas hg hrun hstop
      obtain ⟨g, rfl⟩ : ∃ g, gas = g + 1 := ⟨gas - 1, by omega⟩
      obtain ⟨d, hd, hnum⟩ := hrun 0 (by omega)
      simp only [Nat.add_zero] at hd
      unfold Lexer.readNumberLoopAux
      rw [hd]
      dsimp only
      rw [if_pos hnum]
      rw [ih { l with position := l.position + 1 } g (by omega)
        (fun i hi => by
          obtain ⟨e, he, hne⟩ := hrun (i + 1) (by omega)
          exact ⟨e, by
            have harith : l.position + 1 + (i + 1) = l.position + 1 + 1 + i := by omega
            rw [harith] at he
            exact he, hne⟩)
        (fun e he => by
          apply hstop e
          have harith : l.position + 1 + 1 + k = l.position + 1 + (k + 1) := by omega
          rw [harith] at he
          exact he)]
      have harith : l.position + 1 + k = l.position + (k + 1) := by omega
      rw [harith]

/-- The `TokenString` map has no entry for a digit character. -/
theorem tokenStringChar_digit {c : Char} (h : c.isDigit = true) : tokenStringChar c = none := by
  have hne : ∀ d : Char, d.isDigit = false → c ≠ d := by
    intro d hd he
    rw [he, hd] at h
    cases h
  unfold tokenStringChar
  rw [if_neg (hne '(' (by decide)), if_neg (hne '[' (by decide)),
    if_neg (hne '{' (by decide)), if_neg (hne ')' (by decide)),
    if_neg (hne ']' (by decide)), if_neg (hne '}' (by decide)),
    if_neg (hne '+' (by decide)), if_neg (hne '-' (by decide)),
    if_neg (hne '*' (by decide)), if_neg (hne '/' (by decide)),
    if_neg (hne '=' (by decide)), if_neg (hne '<' (by decide)),
    if_neg (hne '>' (by decide)), if_neg (hne '~' (by decide))]

/-- The length of a `slice`. -/
theorem jsSlice_length (input : List Char) (a b : Nat) :
    (jsSlice input a b).length = min b input.length - a := by
  unfold jsSlice
  rw [List.length_drop, List.length_take]

/-- `nextToken()` on a digit: no whitespace is skipped, the maximal
`isNumber` run is read, and a `Number` token is produced whose lexeme is the
corresponding slice (which includes the run and is nonempty). -/
theorem nextToken_digits (l : Lexer) (c : Char) (k : Nat)
    (hchar : charAt l.input l.position = .chr c) (hd : c.isDigit = true)
    (hrun : ∀ i, i < k → ∃ d, charAt l.input (l.position + 1 + i) = .chr d ∧ isNumberChar d = true)
    (hstop : ∀ d, charAt l.input (l.position + 1 + k) = .chr d → isNumberChar d = false) :
    l.nextToken = ({ l with position := l.position + k + 1 },
      ⟨.Number, jsSlice l.input l.position (l.position + k + 1)⟩) := by
  have hnws : ¬(c = ' ' ∨ c = '\n' ∨ c = '\t' ∨ c = '\r') := by
    rintro (rfl | rfl | rfl | rfl) <;> exact absurd hd (by decide)
  have hgas : k ≤ l.input.length - l.position := by
    cases k with
    | zero => omega
    | succ j =>
        obtain ⟨d, hdd, _⟩ := hrun j (by omega)
        have := charAt_lt hdd
        omega
  have hloop := readNumberLoopAux_run k l (l.input.length - l.position) hgas hrun hstop
  have hlt : l.position < l.input.length := charAt_lt hchar
  have hslice_ne : jsSlice l.input l.position (l.position + k + 1) ≠ [] := by
    intro hnil
    have := jsSlice_length l.input l.position (l.position + k + 1)
    rw [hnil] at this
    simp at this
    omega
  unfold Lexer.nextToken
  rw [skipWhitespace_noWs hchar hnws]
  dsimp only
  rw [show l.char = Ch.chr c from hchar]
  dsimp only
  rw [tokenStringChar_digit hd]
  dsimp only
  rw [if_pos (show isNumberChar c = true from by unfold isNumberChar; rw [hd]; rfl)]
  unfold Lexer.readNumber
  rw [hloop]
  dsimp only
  rw [if_neg hslice_ne]
  rfl

/-- `nextToken()` on a mapped one-character symbol that is not a comparison
symbol and not a signed-number start: the bare one-character token. -/
theorem nextToken_operator (l : Lexer) (c : Char) (t : TokenType)
    (hchar : charAt l.input l.position = .chr c)
    (hts : tokenStringChar c = some t) (hncmp : t ∉ ComparationSymbols)
    (hnws : ¬(c = ' ' ∨ c = '\n' ∨ c = '\t' ∨ c = '\r'))
    (hnsign : l.isSignedNumber = false) :
    l.nextToken = (l.readChar, ⟨t, [c]⟩) := by
  unfold Lexer.nextToken
  rw [skipWhitespace_noWs hchar hnws]
  dsimp only
  rw [show l.char = Ch.chr c from hchar]
  dsimp only
  rw [hts]
  dsimp only
  rw [if_neg hncmp]
  rw [hnsign]
  simp only [Bool.false_eq_true, if_false]

/-- One-step unfolding of the whitespace loop at a successor budget. -/
theorem skipWhitespaceAux_succ (gas : Nat) (l : Lexer) :
    Lexer.skipWhitespaceAux (gas + 1) l =
      (match charAt l.input l.position with
      | .chr c =>
          if c = ' ' ∨ c = '\n' ∨ c = '\t' ∨ c = '\r' then
            Lexer.skipWhitespaceAux gas
              { l with position := l.position + 1,
                       line := if c = '\n' then l.line + 1 else l.line }
          else l
      | .eof => l) := rfl

/-- Skipping one space: `nextToken()` from a position holding `' '` equals
`nextToken()` from the next position. -/
theorem nextToken_ws_step (l : Lexer)
    (hchar : charAt l.input l.position = .chr ' ') :
    l.nextToken = Lexer.nextToken { l with position := l.position + 1 } := by
  have hstep : l.skipWhitespace = Lexer.skipWhitespace { l with position := l.position + 1 } := by
    have hlt : l.position < l.input.length := charAt_lt hchar
    unfold Lexer.skipWhitespace
    obtain ⟨g, hg⟩ : ∃ g, l.input.length - l.position = g + 1 := ⟨l.input.length - l.position - 1, by omega⟩
    rw [hg]
    rw [skipWhitespaceAux_succ]
    rw [hchar]
    dsimp only
    rw [if_pos (by left; rfl)]
    rw [if_neg (by decide : ¬ (' ' = '\n'))]
    have hg2 : l.input.length - (l.position + 1) = g := by omega
    rw [hg2]
  unfold Lexer.nextToken
  rw [hstep]


/-! The four operations' infix characters and token kinds. -/

/-- Each operation's renderer separates its children by its infix symbol. -/
theorem symbolStr_eq (o : Operation) (a b : List Char) :
    o.symbolStr a b = a ++ (' ' :: opChar o :: ' ' :: b) := by
  cases o <;> rfl

/-- `Operations.get` of an operator token kind. -/
theorem OperationsGet_opTokType (o : Operation) : OperationsGet (opTokType o) = some o := by
  cases o <;> rfl

/-- `TokenString.get` of an operator character. -/
theorem tokenStringChar_opChar (o : Operation) :
    tokenStringChar (opChar o) = some (opTokType o) := by
  cases o <;> rfl

/-- Operator token kinds are not comparison symbols. -/
theorem opTokType_notin_cmp (o : Operation) : opTokType o ∉ ComparationSymbols := by
  cases o <;> decide

/-- Operator characters are not `isNumber` characters. -/
theorem isNumberChar_opChar (o : Operation) : isNumberChar (opChar o) = false := by
  cases o <;> decide

/-- Operator characters are not skippable whitespace. -/
theorem opChar_not_ws (o : Operation) :
    ¬(opChar o = ' ' ∨ opChar o = '\n' ∨ opChar o = '\t' ∨ opChar o = '\r') := by
  cases o <;> decide

/-- `charAt` inside the list is the indexed character. -/
theorem charAt_elem (xs : List Char) (i : Nat) (h : i < xs.length) :
    charAt xs i = .chr xs[i] := by
  unfold charAt
  rw [dif_pos h]

/-- First token of the rendered string `ds1 ++ " o " ++ ds2`: the number
lexeme `ds1` with the following space absorbed by `readNumber`. -/
theorem lexRun1 (ds1 ds2 : List Char) (o : Operation)
    (h1ne : ds1 ≠ []) (h1d : ∀ c ∈ ds1, c.isDigit = true) :
    (Lexer.new (ds1 ++ ' ' :: opChar o :: ' ' :: ds2)).nextToken =
      (⟨ds1 ++ ' ' :: opChar o :: ' ' :: ds2, ds1.length + 1, 0⟩,
        ⟨.Number, ds1 ++ [' ']⟩) := by
  obtain ⟨c0, rest1, rfl⟩ := List.exists_cons_of_ne_nil h1ne
  have hchar : charAt ((c0 :: rest1) ++ ' ' :: opChar o :: ' ' :: ds2) 0 = .chr c0 := by
    rw [List.cons_append]
    exact charAt_cons_zero _ _
  have hrun : ∀ i, i < rest1.length + 1 →
      ∃ d, charAt ((c0 :: rest1) ++ ' ' :: opChar o :: ' ' :: ds2) (0 + 1 + i) = .chr d ∧
        isNumberChar d = true := by
    intro i hi
    rw [List.cons_append, show (0 + 1 + i) = i + 1 from by omega, charAt_cons_succ]
    by_cases hi2 : i < rest1.length
    · rw [charAt_append_left hi2, charAt_elem rest1 i hi2]
      refine ⟨rest1[i], rfl, ?_⟩
      have hdig : rest1[i].isDigit = true :=
        h1d _ (List.mem_cons_of_mem _ (List.getElem_mem hi2))
      unfold isNumberChar
      rw [hdig]
      rfl
    · have hieq : i = rest1.length := by omega
      subst hieq
      rw [charAt_append_right (le_refl _), Nat.sub_self, charAt_cons_zero]
      exact ⟨' ', rfl, by decide⟩
  have hstop : ∀ d, charAt ((c0 :: rest1) ++ ' ' :: opChar o :: ' ' :: ds2)
      (0 + 1 + (rest1.length + 1)) = .chr d → isNumberChar d = false := by
    intro d hd
    rw [List.cons_append, show 0 + 1 + (rest1.length + 1) = (rest1.length + 1) + 1 from by omega,
      charAt_cons_succ,
      charAt_append_right (by omega : rest1.length ≤ rest1.length + 1),
      show rest1.length + 1 - rest1.length = 0 + 1 from by omega,
      charAt_cons_succ, charAt_cons_zero] at hd
    have hop : opChar o = d := Ch.chr.inj hd
    rw [← hop]
    exact isNumberChar_opChar o
  have hmain := nextToken_digits (Lexer.new ((c0 :: rest1) ++ ' ' :: opChar o :: ' ' :: ds2))
    c0 (rest1.length + 1) hchar (h1d c0 (List.mem_cons_self _ _)) hrun hstop
  rw [hmain]
  dsimp only [Lexer.new]
  have hassoc : (c0 :: rest1) ++ ' ' :: opChar o :: ' ' :: ds2 =
      ((c0 :: rest1) ++ [' ']) ++ opChar o :: ' ' :: ds2 := by
    simp
  have hslice : jsSlice ((c0 :: rest1) ++ ' ' :: opChar o :: ' ' :: ds2) 0
      (0 + (rest1.length + 1) + 1) = (c0 :: rest1) ++ [' '] := by
    unfold jsSlice
    rw [List.drop_zero, hassoc,
      show 0 + (rest1.length + 1) + 1 = ((c0 :: rest1) ++ [' ']).length from by simp]
    exact List.take_left _ _
  rw [hslice]
  have hpos : 0 + (rest1.length + 1) + 1 = (c0 :: rest1).length + 1 := by simp
  rw [hpos]


/-- Second token of the rendered string: the operator (never folded as a
sign, because the raw preceding character is the space, which satisfies
`isNumber`). -/
theorem lexRun2 (ds1 ds2 : List Char) (o : Operation) :
    (Lexer.mk (ds1 ++ ' ' :: opChar o :: ' ' :: ds2) (ds1.length + 1) 0).nextToken =
      (⟨ds1 ++ ' ' :: opChar o :: ' ' :: ds2, ds1.length + 2, 0⟩,
        ⟨opTokType o, [opChar o]⟩) := by
  have hchar : charAt (ds1 ++ ' ' :: opChar o :: ' ' :: ds2) (ds1.length + 1) =
      .chr (opChar o) := by
    rw [charAt_append_right (by omega : ds1.length ≤ ds1.length + 1),
      show ds1.length + 1 - ds1.length = 0 + 1 from by omega,
      charAt_cons_succ, charAt_cons_zero]
  have hnsign :
      (Lexer.mk (ds1 ++ ' ' :: opChar o :: ' ' :: ds2) (ds1.length + 1) 0).isSignedNumber =
        false := by
    have hlast :
        (Lexer.mk (ds1 ++ ' ' :: opChar o :: ' ' :: ds2) (ds1.length + 1) 0).lastChar =
          .chr ' ' := by
      unfold Lexer.lastChar
      rw [if_neg (by simp)]
      dsimp only
      rw [show ds1.length + 1 - 1 = ds1.length from by omega,
        charAt_append_right (le_refl _), Nat.sub_self, charAt_cons_zero]
    unfold Lexer.isSignedNumber
    rw [hlast]
    simp [isNumberCh, isNumberChar, jsWs]
  have hmain := nextToken_operator
    (Lexer.mk (ds1 ++ ' ' :: opChar o :: ' ' :: ds2) (ds1.length + 1) 0)
    (opChar o) (opTokType o) hchar (tokenStringChar_opChar o) (opTokType_notin_cmp o)
    (opChar_not_ws o) hnsign
  rw [hmain]
  unfold Lexer.readChar
  dsimp only

/-- Third token of the rendered string: the space is skipped and the number
lexeme `ds2` is read, ending past the end of the input. -/
theorem lexRun3 (ds1 ds2 : List Char) (o : Operation)
    (h2ne : ds2 ≠ []) (h2d : ∀ c ∈ ds2, c.isDigit = true) :
    (Lexer.mk (ds1 ++ ' ' :: opChar o :: ' ' :: ds2) (ds1.length + 2) 0).nextToken =
      (⟨ds1 ++ ' ' :: opChar o :: ' ' :: ds2, ds1.length + 3 + ds2.length, 0⟩,
        ⟨.Number, ds2⟩) := by
  obtain ⟨c2, rest2, rfl⟩ := List.exists_cons_of_ne_nil h2ne
  have hchar2 : charAt (ds1 ++ ' ' :: opChar o :: ' ' :: c2 :: rest2) (ds1.length + 2) =
      .chr ' ' := by
    rw [charAt_append_right (by omega : ds1.length ≤ ds1.length + 2),
      show ds1.length + 2 - ds1.length = (0 + 1) + 1 from by omega,
      charAt_cons_succ, charAt_cons_succ, charAt_cons_zero]
  rw [nextToken_ws_step _ hchar2]
  dsimp only
  have hchar3 : charAt (ds1 ++ ' ' :: opChar o :: ' ' :: c2 :: rest2) (ds1.length + 2 + 1) =
      .chr c2 := by
    rw [charAt_append_right (by omega : ds1.length ≤ ds1.length + 2 + 1),
      show ds1.length + 2 + 1 - ds1.length = ((0 + 1) + 1) + 1 from by omega,
      charAt_cons_succ, charAt_cons_succ, charAt_cons_succ, charAt_cons_zero]
  have hrun : ∀ i, i < rest2.length →
      ∃ d, charAt (ds1 ++ ' ' :: opChar o :: ' ' :: c2 :: rest2) (ds1.length + 2 + 1 + 1 + i) =
        .chr d ∧ isNumberChar d = true := by
    intro i hi
    rw [charAt_append_right (by omega : ds1.length ≤ ds1.length + 2 + 1 + 1 + i),
      show ds1.length + 2 + 1 + 1 + i - ds1.length = (((i + 1) + 1) + 1) + 1 from by omega,
      charAt_cons_succ, charAt_cons_succ, charAt_cons_succ, charAt_cons_succ,
      charAt_elem rest2 i hi]
    refine ⟨rest2[i], rfl, ?_⟩
    have hdig : rest2[i].isDigit = true :=
      h2d _ (List.mem_cons_of_mem _ (List.getElem_mem hi))
    unfold isNumberChar
    rw [hdig]
    rfl
  have hstop : ∀ d, charAt (ds1 ++ ' ' :: opChar o :: ' ' :: c2 :: rest2)
      (ds1.length + 2 + 1 + 1 + rest2.length) = .chr d → isNumberChar d = false := by
    intro d hd
    rw [charAt_past (by simp; omega)] at hd
    cases hd
  have hmain := nextToken_digits
    (Lexer.mk (ds1 ++ ' ' :: opChar o :: ' ' :: c2 :: rest2) (ds1.length + 2 + 1) 0)
    c2 rest2.length hchar3 (h2d c2 (List.mem_cons_self _ _)) hrun hstop
  rw [hmain]
  dsimp only
  have hassoc : ds1 ++ ' ' :: opChar o :: ' ' :: c2 :: rest2 =
      (ds1 ++ [' ', opChar o, ' ']) ++ c2 :: rest2 := by
    simp
  have hslice : jsSlice (ds1 ++ ' ' :: opChar o :: ' ' :: c2 :: rest2) (ds1.length + 2 + 1)
      (ds1.length + 2 + 1 + rest2.length + 1) = c2 :: rest2 := by
    unfold jsSlice
    rw [List.take_of_length_le (by simp; omega)]
    rw [hassoc, show ds1.length + 2 + 1 = (ds1 ++ [' ', opChar o, ' ']).length from by simp]
    exact List.drop_left _ _
  rw [hslice]
  rw [show ds1.length + 2 + 1 + rest2.length + 1 = ds1.length + 3 + (c2 :: rest2).length from by
    simp only [List.length_cons]
    omega]


/-- A lexeme of two or more characters never opens a group. -/
theorem isGroupStart_len2 {v : List Char} (h : 2 ≤ v.length) : isGroupStart v = false := by
  unfold isGroupStart
  simp only [Bool.or_eq_false_iff, decide_eq_false_iff_not]
  refine ⟨⟨?_, ?_⟩, ?_⟩ <;> intro hv <;> subst hv <;> exact absurd h (by decide)

/-- An all-digit lexeme never opens a group. -/
theorem isGroupStart_digits {v : List Char} (hd : ∀ c ∈ v, c.isDigit = true) :
    isGroupStart v = false := by
  unfold isGroupStart
  simp only [Bool.or_eq_false_iff, decide_eq_false_iff_not]
  refine ⟨⟨fun hv => ?_, fun hv => ?_⟩, fun hv => ?_⟩
  · subst hv; exact absurd (hd '(' (by simp)) (by decide)
  · subst hv; exact absurd (hd '[' (by simp)) (by decide)
  · subst hv; exact absurd (hd '\x7b' (by simp)) (by decide)

/-- An operator lexeme never opens a group. -/
theorem isGroupStart_opChar (o : Operation) : isGroupStart [opChar o] = false := by
  cases o <;> rfl

/-- Operator token kinds are distinct from `EOF`. -/
theorem opTokType_ne_eof (o : Operation) : opTokType o ≠ .EOF := by
  cases o <;> intro h <;> cases h

/-- Rendering a depth-one compound of two natural leaves below the
exponential-notation threshold: neither child is a Compound, so neither is
parenthesized, giving `ds1 ++ " o " ++ ds2`. -/
theorem numToString_depth1 (x y : Nat) (o : Operation)
    (hx : x < 10 ^ 21) (hy : y < 10 ^ 21) :
    (NumberT.compound (.identity (.fin (x:ℚ))) o (.identity (.fin (y:ℚ)))).numToString =
      natStr x ++ ' ' :: opChar o :: ' ' :: natStr y := by
  unfold NumberT.numToString
  rw [if_neg (by simp [NumberT.pri])]
  rw [if_neg (by simp [NumberT.pri])]
  show o.symbolStr (jsNumToString (.fin (x:ℚ))) (jsNumToString (.fin (y:ℚ))) =
    natStr x ++ ' ' :: opChar o :: ' ' :: natStr y
  rw [symbolStr_eq, jsNumToString_natCast x hx, jsNumToString_natCast y hy]


/-- Symbolic parse of `ds1 ++ " o " ++ ds2` for nonempty digit strings `ds1`,
`ds2` and any operation `o`: a depth-one compound of the two numeric leaves. -/
theorem parseTwoNumbers (ds1 ds2 : List Char) (o : Operation)
    (h1ne : ds1 ≠ []) (h1d : ∀ c ∈ ds1, c.isDigit = true)
    (h2ne : ds2 ≠ []) (h2d : ∀ c ∈ ds2, c.isDigit = true) :
    parseInput 32 (ds1 ++ ' ' :: opChar o :: ' ' :: ds2) =
      .ok (.compound (.identity (.fin (digitsToNat ds1 : ℚ))) o
        (.identity (.fin (digitsToNat ds2 : ℚ)))) := by
  have hlen : (ds1 ++ ' ' :: opChar o :: ' ' :: ds2).length =
      ds1.length + 3 + ds2.length := by
    simp only [List.length_append, List.length_cons]
    omega
  have hL3 : (Lexer.mk (ds1 ++ ' ' :: opChar o :: ' ' :: ds2)
      (ds1.length + 3 + ds2.length) 0).nextToken =
      (⟨ds1 ++ ' ' :: opChar o :: ' ' :: ds2, ds1.length + 3 + ds2.length + 1, 0⟩,
        eofToken) := by
    rw [nextToken_pastEnd _ (le_of_eq hlen)]
    rfl
  have hL4 : (Lexer.mk (ds1 ++ ' ' :: opChar o :: ' ' :: ds2)
      (ds1.length + 3 + ds2.length + 1) 0).nextToken =
      (⟨ds1 ++ ' ' :: opChar o :: ' ' :: ds2, ds1.length + 3 + ds2.length + 2, 0⟩,
        eofToken) := by
    rw [nextToken_pastEnd _ (le_trans (le_of_eq hlen) (Nat.le_succ _))]
    rfl
  have hP0 : Parser.new (Lexer.new (ds1 ++ ' ' :: opChar o :: ' ' :: ds2)) =
      ⟨⟨ds1 ++ ' ' :: opChar o :: ' ' :: ds2, ds1.length + 2, 0⟩, none,
        ⟨.Number, ds1 ++ [' ']⟩, ⟨opTokType o, [opChar o]⟩⟩ := by
    unfold Parser.new
    rw [lexRun1 ds1 ds2 o h1ne h1d]
    dsimp only
    rw [lexRun2 ds1 ds2 o]
  have hnum1 : Parser.parseNumber
      ⟨⟨ds1 ++ ' ' :: opChar o :: ' ' :: ds2, ds1.length + 2, 0⟩, none,
        ⟨.Number, ds1 ++ [' ']⟩, ⟨opTokType o, [opChar o]⟩⟩ =
      NumberT.identity (.fin (digitsToNat ds1 : ℚ)) := by
    unfold Parser.parseNumber
    dsimp only
    rw [jsToNumber_digits_space h1ne h1d]
  have hP1 : Parser.nextToken
      ⟨⟨ds1 ++ ' ' :: opChar o :: ' ' :: ds2, ds1.length + 2, 0⟩,
        some (NumberT.identity (.fin (digitsToNat ds1 : ℚ))),
        ⟨.Number, ds1 ++ [' ']⟩, ⟨opTokType o, [opChar o]⟩⟩ =
      ⟨⟨ds1 ++ ' ' :: opChar o :: ' ' :: ds2, ds1.length + 3 + ds2.length, 0⟩,
        some (NumberT.identity (.fin (digitsToNat ds1 : ℚ))),
        ⟨opTokType o, [opChar o]⟩, ⟨.Number, ds2⟩⟩ := by
    unfold Parser.nextToken
    dsimp only
    rw [lexRun3 ds1 ds2 o h2ne h2d]
  have hP2 : Parser.nextToken
      ⟨⟨ds1 ++ ' ' :: opChar o :: ' ' :: ds2, ds1.length + 3 + ds2.length, 0⟩,
        some (NumberT.identity (.fin (digitsToNat ds1 : ℚ))),
        ⟨opTokType o, [opChar o]⟩, ⟨.Number, ds2⟩⟩ =
      ⟨⟨ds1 ++ ' ' :: opChar o :: ' ' :: ds2, ds1.length + 3 + ds2.length + 1, 0⟩,
        some (NumberT.identity (.fin (digitsToNat ds1 : ℚ))),
        ⟨.Number, ds2⟩, eofToken⟩ := by
    unfold Parser.nextToken
    dsimp only
    rw [hL3]
  have hnum2 : Parser.parseNumber
      ⟨⟨ds1 ++ ' ' :: opChar o :: ' ' :: ds2, ds1.length + 3 + ds2.length + 1, 0⟩,
        some (NumberT.identity (.fin (digitsToNat ds1 : ℚ))),
        ⟨.Number, ds2⟩, eofToken⟩ =
      NumberT.identity (.fin (digitsToNat ds2 : ℚ)) := by
    unfold Parser.parseNumber
    dsimp only
    rw [jsToNumber_digits h2ne h2d]
  have hP3 : Parser.nextToken
      ⟨⟨ds1 ++ ' ' :: opChar o :: ' ' :: ds2, ds1.length + 3 + ds2.length + 1, 0⟩,
        some (NumberT.compound (.identity (.fin (digitsToNat ds1 : ℚ))) o
          (.identity (.fin (digitsToNat ds2 : ℚ)))),
        ⟨.Number, ds2⟩, eofToken⟩ =
      ⟨⟨ds1 ++ ' ' :: opChar o :: ' ' :: ds2, ds1.length + 3 + ds2.length + 2, 0⟩,
        some (NumberT.compound (.identity (.fin (digitsToNat ds1 : ℚ))) o
          (.identity (.fin (digitsToNat ds2 : ℚ)))),
        eofToken, eofToken⟩ := by
    unfold Parser.nextToken
    dsimp only
    rw [hL4]
  have hgs1 : isGroupStart (ds1 ++ [' ']) = false :=
    isGroupStart_len2 (by
      have := List.length_pos.mpr h1ne
      simp only [List.length_append, List.length_cons, List.length_nil]
      omega)
  have hA : parseLoopF (27+1+1+1+1+1)
      ⟨⟨ds1 ++ ' ' :: opChar o :: ' ' :: ds2, ds1.length + 2, 0⟩, none,
        ⟨.Number, ds1 ++ [' ']⟩, ⟨opTokType o, [opChar o]⟩⟩ =
      .ok ⟨⟨ds1 ++ ' ' :: opChar o :: ' ' :: ds2, ds1.length + 3 + ds2.length + 2, 0⟩,
        some (NumberT.compound (.identity (.fin (digitsToNat ds1 : ℚ))) o
          (.identity (.fin (digitsToNat ds2 : ℚ)))),
        eofToken, eofToken⟩ := by
    rw [parseLoopF_succ]
    dsimp only
    rw [if_neg (by decide : ¬(TokenType.Number = TokenType.EOF))]
    rw [parseValueF_succ]
    dsimp only
    rw [hgs1]
    simp only [Bool.false_eq_true, if_false]
    rw [parseExpressionF_succ_none]
    dsimp only
    rw [hnum1]
    rw [hP1]
    rw [parseLoopF_succ]
    dsimp only
    rw [if_neg (fun hc => opTokType_ne_eof o hc)]
    rw [parseValueF_succ]
    dsimp only
    rw [isGroupStart_opChar o]
    simp only [Bool.false_eq_true, if_false]
    rw [parseExpressionF_succ_some]
    dsimp only
    rw [OperationsGet_opTokType o]
    dsimp only
    rw [hP2]
    dsimp only
    rw [isGroupStart_digits h2d]
    simp only [Bool.false_eq_true, if_false]
    rw [parseExpressionF_succ_none]
    dsimp only
    rw [show OperationsGet eofToken.typ = none from rfl]
    dsimp only
    rw [hnum2]
    rw [hP3]
    rw [parseLoopF_succ]
    dsimp only
    dsimp only [eofToken]
    rw [if_pos rfl]
  unfold parseInput parseF
  rw [hP0]
  rw [show (32:Nat) = 27+1+1+1+1+1 from rfl]
  rw [hA]


/-- The lexer's first token on a pure digit string is the whole string as a
number literal, leaving the position one past the end. -/
theorem lexSingle (ds : List Char) (hne : ds ≠ []) (hd : ∀ c ∈ ds, c.isDigit = true) :
    (Lexer.new ds).nextToken = (⟨ds, ds.length, 0⟩, ⟨.Number, ds⟩) := by
  obtain ⟨c, rest, rfl⟩ := List.exists_cons_of_ne_nil hne
  have hchar : charAt (c :: rest) 0 = .chr c := charAt_cons_zero _ _
  have hrun : ∀ i, i < rest.length →
      ∃ d, charAt (c :: rest) (0 + 1 + i) = .chr d ∧ isNumberChar d = true := by
    intro i hi
    rw [show (0 + 1 + i) = i + 1 from by omega, charAt_cons_succ, charAt_elem rest i hi]
    refine ⟨rest[i], rfl, ?_⟩
    have hdig : rest[i].isDigit = true := hd _ (List.mem_cons_of_mem _ (List.getElem_mem hi))
    unfold isNumberChar
    rw [hdig]
    rfl
  have hstop : ∀ d, charAt (c :: rest) (0 + 1 + rest.length) = .chr d →
      isNumberChar d = false := by
    intro d hdd
    rw [charAt_past (by simp only [List.length_cons]; omega)] at hdd
    cases hdd
  have hmain := nextToken_digits (Lexer.new (c :: rest)) c rest.length hchar
    (hd c (List.mem_cons_self _ _)) hrun hstop
  rw [hmain]
  have hslice : jsSlice (c :: rest) 0 (0 + rest.length + 1) = c :: rest := by
    unfold jsSlice
    rw [List.take_of_length_le (by simp), List.drop_zero]
  dsimp only [Lexer.new]
  rw [hslice]
  rw [show 0 + rest.length + 1 = (c :: rest).length from by simp only [List.length_cons]; omega]

/-- Symbolic parse of a pure digit string: a single numeric leaf. -/
theorem parseOneNumber (ds : List Char) (hne : ds ≠ []) (hd : ∀ c ∈ ds, c.isDigit = true) :
    parseInput 32 ds = .ok (.identity (.fin (digitsToNat ds : ℚ))) := by
  have hL1 : (Lexer.mk ds ds.length 0).nextToken = (⟨ds, ds.length + 1, 0⟩, eofToken) := by
    rw [nextToken_pastEnd _ (le_refl _)]
    rfl
  have hL2 : (Lexer.mk ds (ds.length + 1) 0).nextToken =
      (⟨ds, ds.length + 2, 0⟩, eofToken) := by
    rw [nextToken_pastEnd _ (Nat.le_succ _)]
    rfl
  have hP0 : Parser.new (Lexer.new ds) =
      ⟨⟨ds, ds.length + 1, 0⟩, none, ⟨.Number, ds⟩, eofToken⟩ := by
    unfold Parser.new
    rw [lexSingle ds hne hd]
    dsimp only
    rw [hL1]
  have hnum : Parser.parseNumber ⟨⟨ds, ds.length + 1, 0⟩, none, ⟨.Number, ds⟩, eofToken⟩ =
      NumberT.identity (.fin (digitsToNat ds : ℚ)) := by
    unfold Parser.parseNumber
    dsimp only
    rw [jsToNumber_digits hne hd]
  have hP1 : Parser.nextToken
      ⟨⟨ds, ds.length + 1, 0⟩, some (NumberT.identity (.fin (digitsToNat ds : ℚ))),
        ⟨.Number, ds⟩, eofToken⟩ =
      ⟨⟨ds, ds.length + 2, 0⟩, some (NumberT.identity (.fin (digitsToNat ds : ℚ))),
        eofToken, eofToken⟩ := by
    unfold Parser.nextToken
    dsimp only
    rw [hL2]
  have hA : parseLoopF (29+1+1+1) ⟨⟨ds, ds.length + 1, 0⟩, none, ⟨.Number, ds⟩, eofToken⟩ =
      .ok ⟨⟨ds, ds.length + 2, 0⟩, some (NumberT.identity (.fin (digitsToNat ds : ℚ))),
        eofToken, eofToken⟩ := by
    rw [parseLoopF_succ]
    dsimp only
    rw [if_neg (by decide : ¬(TokenType.Number = TokenType.EOF))]
    rw [parseValueF_succ]
    dsimp only
    rw [isGroupStart_digits hd]
    simp only [Bool.false_eq_true, if_false]
    rw [parseExpressionF_succ_none]
    dsimp only
    rw [hnum]
    rw [hP1]
    rw [parseLoopF_succ]
    dsimp only [eofToken]
    rw [if_pos rfl]
  unfold parseInput parseF
  rw [hP0]
  rw [show (32:Nat) = 29+1+1+1 from rfl]
  rw [hA]

/-- C1 counterexample: the tree `8 - (4 - 2)` (built from the public
constructors, evaluating to 6, not NaN) renders to `"8 - 4 - 2"` — the
equal-priority right child is not parenthesized — and that string parses
left-to-right, evaluating to 2: the round-trip changes the value. -/
theorem C1_counterexample :
    (NumberT.compound (.identity (.fin ((8:Nat):ℚ))) .sub
        (.compound (.identity (.fin ((4:Nat):ℚ))) .sub
          (.identity (.fin ((2:Nat):ℚ))))).numToString = "8 - 4 - 2".data ∧
    (NumberT.compound (.identity (.fin ((8:Nat):ℚ))) .sub
        (.compound (.identity (.fin ((4:Nat):ℚ))) .sub
          (.identity (.fin ((2:Nat):ℚ))))).get = .fin 6 ∧
    evalParse 32 ("8 - 4 - 2".data) = .ok (.fin 2) ∧
    JsNum.fin 6 ≠ JsNum.fin 2 := by
  refine ⟨by decide, ?_, ?_, ?_⟩
  · simp only [NumberT.get, Operation.apply, jsSub, jsAdd, jsNeg]
    norm_num
  · have hparse : parseInput 32 ("8 - 4 - 2".data) =
        .ok (.compound (.compound (.identity (.fin ((8:Nat):ℚ))) .sub
          (.identity (.fin ((4:Nat):ℚ)))) .sub (.identity (.fin ((2:Nat):ℚ)))) := by
      decide
    unfold evalParse
    rw [hparse]
    dsimp only
    simp only [NumberT.get, Operation.apply, jsSub, jsAdd, jsNeg]
    norm_num
  · intro hc
    injection hc with h
    norm_num at h

/-- C1 (amended): the round-trip `evaluate(parse(render(t))) = evaluate(t)`
holds exactly for every tree of depth at most one — a lone natural-number
leaf `identity x`, or `compound(identity x, o, identity y)` with any of the
four operations — whose leaves stay below JavaScript's exponential-notation
threshold `1e21`, at every recursion budget of at least 32.  It does not hold
for every constructor-built non-NaN tree: see the counterexample, where the
renderer's unparenthesized equal-priority right child is regrouped
left-to-right by the parser. -/
theorem C1_theorem (x y : Nat) (o : Operation) (fuel : Nat)
    (hx : x < 10 ^ 21) (hy : y < 10 ^ 21) (hf : 32 ≤ fuel) :
    evalParse fuel ((NumberT.identity (.fin (x:ℚ))).numToString) =
      .ok (NumberT.identity (.fin (x:ℚ))).get ∧
    evalParse fuel
      ((NumberT.compound (.identity (.fin (x:ℚ))) o (.identity (.fin (y:ℚ)))).numToString) =
      .ok ((NumberT.compound (.identity (.fin (x:ℚ))) o (.identity (.fin (y:ℚ)))).get) := by
  obtain ⟨h1ne, h1d⟩ := natStr_digits x
  obtain ⟨h2ne, h2d⟩ := natStr_digits y
  constructor
  · have hrender : (NumberT.identity (.fin (x:ℚ))).numToString = natStr x := by
      show jsNumToString (.fin (x:ℚ)) = natStr x
      exact jsNumToString_natCast x hx
    rw [hrender]
    have h := parseOneNumber (natStr x) h1ne h1d
    rw [digitsToNat_natStr] at h
    exact evalParse_mono_of hf h
  · have h := parseTwoNumbers (natStr x) (natStr y) o h1ne h1d h2ne h2d
    rw [digitsToNat_natStr, digitsToNat_natStr] at h
    rw [numToString_depth1 x y o hx hy]
    exact evalParse_mono_of hf h

/-- C1 witness: the amended round-trip at the leaf `3` and at `3 + 4`, with
budget 32 and leaves below `1e21`. -/
theorem C1_witness :
    (3:Nat) < 10 ^ 21 ∧ (4:Nat) < 10 ^ 21 ∧ 32 ≤ 32 ∧
    (evalParse 32 ((NumberT.identity (.fin ((3:Nat):ℚ))).numToString) =
        .ok (NumberT.identity (.fin ((3:Nat):ℚ))).get ∧
      evalParse 32 ((NumberT.compound (.identity (.fin ((3:Nat):ℚ))) .sum
          (.identity (.fin ((4:Nat):ℚ)))).numToString) =
        .ok ((NumberT.compound (.identity (.fin ((3:Nat):ℚ))) .sum
          (.identity (.fin ((4:Nat):ℚ)))).get)) :=
  ⟨by decide, by decide, by decide,
    C1_theorem 3 4 .sum 32 (by decide) (by decide) (by decide)⟩

end Jer
